import Mathlib

/-!
# OpenDungeons: the research ledger of `Player` and the visibility of spells

A shallow embedding of the research part of `source/game/Player.cpp`
(`addResearch`, `addResearchPoints`, `setNextResearch`, `setResearchesDone`,
`setResearchTree`) together with the pieces of the game they read: the list of
`Research` definitions held by `ConfigManager`, the rendered movable entities of
the `GameMap`, and the notification queue of `ODServer`; of `dropHand` and the chat
notifications and the other operations on the hand of the same file; of
`source/spell/Spell.cpp`: the visibility notification, the dispatch on the spell type,
the decoders, the export of the headers and the countdown; and of `split` and
`scrollHistory` of
`source/Console.cpp`.

Pointers are modelled by values: `const Research*` is `Option Research`,
`Seat*` is `Option Nat` (the seat's identity, `none` for `nullptr`).
`int32_t` arithmetic is carried out on `Int` and reduced with `wrapInt32`.
-/

namespace OpenDungeons

/-! ## Data model -/

/-- Modelled from the spec: the enum `ResearchType` is declared in `game/Research.h`,
which is not part of the sources at hand. The constructors are the identities that
`Player.cpp` names; `nullResearchType` is the "none" identity. -/
inductive ResearchType where
  | nullResearchType
  | roomTreasury
  | roomHatchery
  | roomDormitory
  | roomLibrary
  | roomTrainingHall
  | roomForge
  | roomCrypt
  | trapCannon
  | trapSpike
  | trapBoulder
  | spellSummonWorker
  | spellCallToWar
  deriving DecidableEq, Repr

/-- Modelled from the spec: the class `Research` (`game/Research.h`) is missing from the
sources. A catalog entry is an identity, a point cost and a prerequisite set. -/
structure Research where
  mType : ResearchType
  mNeededResearchPoints : Int
  mNeededResearch : List ResearchType
  deriving DecidableEq, Repr

namespace Research

/-- The accessor `Research::getType`. -/
def getType (r : Research) : ResearchType := r.mType

/-- The accessor `Research::getNeededResearchPoints`. -/
def getNeededResearchPoints (r : Research) : Int := r.mNeededResearchPoints

/-- Modelled from the spec: `Research::canBeResearched` (`game/Research.cpp`) is missing
from the sources. Given a list of node identities, it answers whether every prerequisite
of this node occurs in that list. -/
def canBeResearched (r : Research) (researchesDone : List ResearchType) : Bool :=
  r.mNeededResearch.all (fun needed => decide (needed ∈ researchesDone))

end Research

/-- Modelled from the spec: the enum `GameEntityType` is declared in
`entities/GameEntity.h`, which is not part of the sources at hand. The constructors are
the kinds of game entity that the sources name, and one for all the others. -/
inductive GameEntityType where
  | creature
  | researchEntity
  | spell
  | unknown
  deriving DecidableEq, Repr

/-- A rendered movable entity of the game map, as far as `setNextResearch` looks at it:
its kind, its seat and, for a `ResearchEntity`, the research it carries. -/
structure RenderedMovableEntity where
  objectType : GameEntityType
  seat : Option Nat
  researchType : ResearchType
  deriving DecidableEq, Repr

/-- Modelled from the spec: the enum `ServerNotificationType` is declared in
`network/ServerNotification.h`, which is not part of the sources at hand. The
constructors are the kinds of notification that `Player.cpp` enqueues. -/
inductive ServerNotificationType where
  | chatServer
  | playerFighting
  | playerNoMoreFighting
  | researchTree
  | researchesDone
  deriving DecidableEq, Repr

/-- The texts that `Player.cpp` sends as chat messages of the server. -/
inductive ChatMessage where
  | youLostTheGame
  | youLost
  | anAllyHasLost
  | noTreasuryAvailable
  deriving DecidableEq, Repr

/-- One value written to an `ODPacket`. -/
inductive PacketField where
  | uint32 (n : Nat)
  | research (t : ResearchType)
  | chat (message : ChatMessage)
  deriving DecidableEq, Repr

/-- A `ServerNotification`: its kind, the player it concerns and its packet. -/
structure ServerNotification where
  mType : ServerNotificationType
  mConcernedPlayer : Int
  mPacket : List PacketField
  deriving DecidableEq, Repr

/-- A failed assertion of `Player.cpp`: the two of `setResearchTree`, the index test of
`dropHand`, and the test that the player is the local one. -/
inductive Diagnostic where
  | unknowResearch (t : ResearchType)
  | unallowedResearch (t : ResearchType)
  | dropHandIndex (index : Nat)
  | notLocalPlayer
  deriving DecidableEq, Repr

/-- A game entity as far as the hand of a player looks at it: its identity, its kind and
its seat. -/
structure GameEntity where
  name : Nat
  objectType : GameEntityType
  seat : Option Nat
  deriving DecidableEq, Repr

/-- A tile, by its coordinates. -/
structure Tile where
  x : Int
  y : Int
  deriving DecidableEq, Repr

/-- The members of `Player` that the modelled operations read and write. The two float
counters are only compared with `0.0f` and set to whole numbers of seconds here; they are
held as integers. -/
structure Player where
  mId : Int
  mSeat : Option Nat
  mIsHuman : Bool
  mResearchPoints : Int
  mCurrentResearch : Option Research
  mNeedRefreshGuiResearchDone : Bool
  mNeedRefreshGuiResearchPending : Bool
  mResearchDone : List ResearchType
  mResearchPending : List ResearchType
  mObjectsInHand : List GameEntity := []
  mFightingTime : Int := 0
  mNoTreasuryAvailableTime : Int := 0
  mIsPlayerLostSent : Bool := false
  deriving DecidableEq, Repr

/-- The part of `GameMap` that the ledger reads. -/
structure GameMap where
  isServerGameMap : Bool
  renderedMovableEntities : List RenderedMovableEntity
  deriving DecidableEq, Repr

/-- Everything a ledger operation reads or writes: the game map, the research list of
`ConfigManager`, the player, the queue of `ODServer` and the assertion log. -/
structure Game where
  gameMap : GameMap
  researches : List Research
  player : Player
  queue : List ServerNotification
  log : List Diagnostic
  deriving DecidableEq, Repr

/-- The constructor `Player::Player(gameMap, id)`. -/
def Player.new (id : Int) : Player :=
  { mId := id
    mSeat := none
    mIsHuman := false
    mResearchPoints := 0
    mCurrentResearch := none
    mNeedRefreshGuiResearchDone := false
    mNeedRefreshGuiResearchPending := false
    mResearchDone := []
    mResearchPending := []
    mObjectsInHand := []
    mFightingTime := 0
    mNoTreasuryAvailableTime := 0
    mIsPlayerLostSent := false }

/-- Whether `x` is a value of `int32_t`. -/
def isInt32 (x : Int) : Prop := -2147483648 ≤ x ∧ x < 2147483648

instance (x : Int) : Decidable (isInt32 x) := by
  unfold isInt32
  exact inferInstance

/-- Reduction of an integer to the `int32_t` range (two's complement). -/
def wrapInt32 (x : Int) : Int := (x + 2147483648) % 4294967296 - 2147483648

/-! ## Operations -/

/-- The catalog search shared by `setNextResearch` and `setResearchTree`: the first
`Research` of the list whose type is `researchType`. -/
def findResearch (researchType : ResearchType) : List Research → Option Research
  | [] => none
  | research :: rest =>
    if research.getType ≠ researchType then findResearch researchType rest
    else some research

/-- The inner loop of `setNextResearch` over the renderables: `researchType` is reset to
`nullResearchType` at the first `ResearchEntity` of the seat that carries `pending`. -/
def scanRenderables (seat : Option Nat) (pending : ResearchType) :
    List RenderedMovableEntity → ResearchType → ResearchType
  | [], researchType => researchType
  | renderable :: rest, researchType =>
    if renderable.objectType ≠ GameEntityType.researchEntity then
      scanRenderables seat pending rest researchType
    else if renderable.seat ≠ seat then
      scanRenderables seat pending rest researchType
    else if renderable.researchType ≠ pending then
      scanRenderables seat pending rest researchType
    else
      ResearchType.nullResearchType

/-- The outer loop of `setNextResearch` over the pending researches. -/
def searchPending (renderables : List RenderedMovableEntity) (seat : Option Nat)
    (researchedType : ResearchType) : List ResearchType → ResearchType
  | [] => ResearchType.nullResearchType
  | pending :: rest =>
    if pending = researchedType then
      searchPending renderables seat researchedType rest
    else
      let researchType := scanRenderables seat pending renderables pending
      if researchType ≠ ResearchType.nullResearchType then researchType
      else searchPending renderables seat researchedType rest

/-- `Player::setNextResearch`. -/
def setNextResearch (g : Game) (researchedType : ResearchType) : Game :=
  let researchType := searchPending g.gameMap.renderedMovableEntities g.player.mSeat
    researchedType g.player.mResearchPending
  if researchType = ResearchType.nullResearchType then
    { g with player := { g.player with mCurrentResearch := none } }
  else
    { g with player := { g.player with
        mCurrentResearch := findResearch researchType g.researches } }

/-- The packet of a research notification: the number of items, then the items. -/
def researchPacket (l : List ResearchType) : List PacketField :=
  PacketField.uint32 (l.length % 4294967296) :: l.map PacketField.research

/-- The erasing loop of `setResearchesDone`: for each done research, the first
occurrence in the pending list is erased if there is one. -/
def erasePending (pending : List ResearchType) (researches : List ResearchType) :
    List ResearchType :=
  researches.foldl (fun acc type => acc.erase type) pending

/-- `Player::setResearchesDone`. -/
def setResearchesDone (g : Game) (researches : List ResearchType) : Game :=
  let player := { g.player with
    mResearchDone := researches
    mResearchPending := erasePending g.player.mResearchPending researches }
  if g.gameMap.isServerGameMap then
    if player.mIsHuman then
      { g with
        player := player
        queue := g.queue ++ [{ mType := ServerNotificationType.researchesDone
                               mConcernedPlayer := player.mId
                               mPacket := researchPacket player.mResearchDone }] }
    else
      { g with player := player }
  else
    { g with player := { player with mNeedRefreshGuiResearchDone := true } }

/-- `Player::addResearch`. -/
def addResearch (g : Game) (type : ResearchType) : Bool × Game :=
  if type ∈ g.player.mResearchDone then (false, g)
  else (true, setResearchesDone g (g.player.mResearchDone ++ [type]))

/-- `Player::isResearchDone`. -/
def isResearchDone (p : Player) (type : ResearchType) : Bool :=
  p.mResearchDone.any (fun researchDone => decide (researchDone = type))

/-- `Player::addResearchPoints`. -/
def addResearchPoints (g : Game) (points : Int) : Option Research × Game :=
  match g.player.mCurrentResearch with
  | none => (none, g)
  | some current =>
    let points1 := wrapInt32 (g.player.mResearchPoints + points)
    if points1 < current.getNeededResearchPoints then
      (none, { g with player := { g.player with mResearchPoints := points1 } })
    else
      let points2 := wrapInt32 (points1 - current.getNeededResearchPoints)
      (some current,
        setNextResearch { g with player := { g.player with mResearchPoints := points2 } }
          current.getType)

/-- The outcome of the validation loop of `setResearchTree`. -/
inductive TreeCheck where
  | valid (researchesDoneInTree : List ResearchType)
  | unknowResearch (t : ResearchType)
  | unallowedResearch (t : ResearchType)
  deriving DecidableEq, Repr

/-- The validation loop of the server branch of `setResearchTree`. `researches` is the
whole proposed list (the argument handed to `canBeResearched`), the third argument is the
part of it still to visit, and `researchesDoneInTree` grows by each valid entry. -/
def checkResearchTree (researchList : List Research) (researches : List ResearchType) :
    List ResearchType → List ResearchType → TreeCheck
  | [], researchesDoneInTree => TreeCheck.valid researchesDoneInTree
  | researchType :: rest, researchesDoneInTree =>
    match findResearch researchType researchList with
    | none => TreeCheck.unknowResearch researchType
    | some research =>
      if !research.canBeResearched researches then
        TreeCheck.unallowedResearch researchType
      else
        checkResearchTree researchList researches rest (researchesDoneInTree ++ [researchType])

/-- `Player::setResearchTree`. -/
def setResearchTree (g : Game) (researches : List ResearchType) : Game :=
  if g.gameMap.isServerGameMap then
    match checkResearchTree g.researches researches researches g.player.mResearchDone with
    | TreeCheck.unknowResearch t => { g with log := g.log ++ [Diagnostic.unknowResearch t] }
    | TreeCheck.unallowedResearch t =>
      { g with log := g.log ++ [Diagnostic.unallowedResearch t] }
    | TreeCheck.valid _ =>
      let player := { g.player with mResearchPending := researches }
      let g1 : Game :=
        if player.mIsHuman then
          { g with
            player := player
            queue := g.queue ++ [{ mType := ServerNotificationType.researchTree
                                   mConcernedPlayer := player.mId
                                   mPacket := researchPacket player.mResearchPending }] }
        else
          { g with player := player }
      setNextResearch g1 ResearchType.nullResearchType
  else
    { g with player := { g.player with
        mResearchPending := researches
        mNeedRefreshGuiResearchPending := true } }

/-! ## Runs of ledger operations -/

/-- A call of one of the ledger operations. -/
inductive LedgerOp where
  | setResearchTree (researches : List ResearchType)
  | setNextResearch (researchedType : ResearchType)
  | addResearchPoints (points : Int)
  | addResearch (type : ResearchType)
  | setResearchesDone (researches : List ResearchType)
  deriving DecidableEq, Repr

/-- The state after one ledger operation. -/
def applyOp (g : Game) : LedgerOp → Game
  | LedgerOp.setResearchTree researches => setResearchTree g researches
  | LedgerOp.setNextResearch researchedType => setNextResearch g researchedType
  | LedgerOp.addResearchPoints points => (addResearchPoints g points).2
  | LedgerOp.addResearch type => (addResearch g type).2
  | LedgerOp.setResearchesDone researches => setResearchesDone g researches

/-- The state after a sequence of ledger operations. -/
def runOps (g : Game) (ops : List LedgerOp) : Game :=
  ops.foldl applyOp g

/-- A game whose player has just been constructed: nothing on the map, nothing queued. -/
def freshGame (server : Bool) (researches : List Research) : Game :=
  { gameMap := { isServerGameMap := server, renderedMovableEntities := [] }
    researches := researches
    player := Player.new 1
    queue := []
    log := [] }

/-! ## Example catalog -/

/-- The library: 100 points, no prerequisite. -/
def library : Research :=
  { mType := ResearchType.roomLibrary, mNeededResearchPoints := 100, mNeededResearch := [] }

/-- The training hall: 30 points, requires the library. -/
def trainingHall : Research :=
  { mType := ResearchType.roomTrainingHall, mNeededResearchPoints := 30,
    mNeededResearch := [ResearchType.roomLibrary] }

/-- The catalog of the examples. -/
def exampleResearches : List Research := [library, trainingHall]

/-- The game of the examples: server side, the example catalog, a fresh player. -/
def exampleGame : Game := freshGame true exampleResearches

/-! ## The acceptance rule in the words of the specification -/

/-- The rule the specification gives for `setResearchTree`: every entry of the list exists
in the catalog and its prerequisites are met by `researchesDoneInTree`, which starts as
the done list of the ledger and grows by the entries placed earlier in the list. -/
def specTreeAllowed (researchList : List Research) :
    List ResearchType → List ResearchType → Bool
  | [], _ => true
  | researchType :: rest, researchesDoneInTree =>
    match findResearch researchType researchList with
    | none => false
    | some research =>
      research.canBeResearched researchesDoneInTree &&
        specTreeAllowed researchList rest (researchesDoneInTree ++ [researchType])

/-- Whether the server branch of `setResearchTree` accepts the list, i.e. its validation
loop runs to the end. -/
def treeAccepted (g : Game) (researches : List ResearchType) : Bool :=
  match checkResearchTree g.researches researches researches g.player.mResearchDone with
  | TreeCheck.valid _ => true
  | _ => false

/-! ## Lemmas on the validation loop -/

theorem findResearch_getType {t : ResearchType} {l : List Research} {r : Research}
    (h : findResearch t l = some r) : r.mType = t := by
  induction l with
  | nil => simp [findResearch] at h
  | cons a rest ih =>
    unfold findResearch at h
    by_cases ha : a.getType = t
    · simp only [ne_eq, ha, not_true_eq_false, if_false, Option.some.injEq] at h
      subst h
      exact ha
    · simp only [ne_eq, ha, not_false_eq_true, if_true] at h
      exact ih h

theorem checkResearchTree_valid_iff (cat : List Research) (L : List ResearchType) :
    ∀ (rest acc : List ResearchType),
      (∃ d, checkResearchTree cat L rest acc = TreeCheck.valid d) ↔
        ∀ t ∈ rest, ∃ r, findResearch t cat = some r ∧ r.canBeResearched L = true := by
  intro rest
  induction rest with
  | nil => intro acc; simp [checkResearchTree]
  | cons a rest ih =>
    intro acc
    unfold checkResearchTree
    cases hf : findResearch a cat with
    | none => simp [hf]
    | some r =>
      by_cases hc : r.canBeResearched L = true
      · simp only [hc, Bool.not_true, Bool.false_eq_true, if_false, List.mem_cons,
          forall_eq_or_imp, hf, Option.some.injEq, exists_eq_left', true_and]
        exact ih _
      · simp [hc, hf]

theorem checkResearchTree_valid_eq (cat : List Research) (L : List ResearchType) :
    ∀ (rest acc d : List ResearchType),
      checkResearchTree cat L rest acc = TreeCheck.valid d → d = acc ++ rest := by
  intro rest
  induction rest with
  | nil => intro acc d h; simp [checkResearchTree] at h; simp [h]
  | cons a rest ih =>
    intro acc d h
    unfold checkResearchTree at h
    cases hf : findResearch a cat with
    | none => simp [hf] at h
    | some r =>
      by_cases hc : r.canBeResearched L = true
      · simp only [hf, hc, Bool.not_true, Bool.false_eq_true, if_false] at h
        have := ih _ _ h
        simp [this]
      · simp [hf, hc] at h

theorem treeAccepted_iff (g : Game) (L : List ResearchType) :
    treeAccepted g L = true ↔
      ∀ t ∈ L, ∃ r, findResearch t g.researches = some r ∧ r.canBeResearched L = true := by
  rw [← checkResearchTree_valid_iff g.researches L L g.player.mResearchDone]
  unfold treeAccepted
  split <;> simp_all

/-! ## Frame lemmas of `setNextResearch` -/

/-- The research `setNextResearch` selects. -/
def nextResearch (g : Game) (researchedType : ResearchType) : Option Research :=
  (setNextResearch g researchedType).player.mCurrentResearch

theorem setNextResearch_eq (g : Game) (t : ResearchType) :
    setNextResearch g t =
      { g with player := { g.player with mCurrentResearch := nextResearch g t } } := by
  unfold nextResearch setNextResearch
  by_cases h : searchPending g.gameMap.renderedMovableEntities g.player.mSeat t
      g.player.mResearchPending = ResearchType.nullResearchType
  · simp [h]
  · simp [h]

theorem setNextResearch_pending (g : Game) (t : ResearchType) :
    (setNextResearch g t).player.mResearchPending = g.player.mResearchPending := by
  rw [setNextResearch_eq]

theorem setNextResearch_done (g : Game) (t : ResearchType) :
    (setNextResearch g t).player.mResearchDone = g.player.mResearchDone := by
  rw [setNextResearch_eq]

theorem setNextResearch_points (g : Game) (t : ResearchType) :
    (setNextResearch g t).player.mResearchPoints = g.player.mResearchPoints := by
  rw [setNextResearch_eq]

theorem setNextResearch_queue (g : Game) (t : ResearchType) :
    (setNextResearch g t).queue = g.queue := by
  rw [setNextResearch_eq]

/-- An accepted list replaces the pending list as it is, in the same order. -/
theorem setResearchTree_accepted_pending (g : Game) (L : List ResearchType)
    (hs : g.gameMap.isServerGameMap = true) (ha : treeAccepted g L = true) :
    (setResearchTree g L).player.mResearchPending = L := by
  unfold treeAccepted at ha
  unfold setResearchTree
  simp only [hs, if_true]
  split
  · simp_all
  · simp_all
  · rw [setNextResearch_pending]
    split <;> rfl

/-- The example game after the library has been delivered. -/
def libraryDoneGame : Game := setResearchesDone exampleGame [ResearchType.roomLibrary]

/-! ## Claims on `setResearchTree` -/

/-- C1: the server branch of `setResearchTree` does not apply the rule of the
specification. The validation loop hands the whole proposed list to `canBeResearched`
and never reads `researchesDoneInTree`. With the training hall requiring the library and
nothing done, the list `[roomTrainingHall, roomLibrary]` is refused by the rule but
accepted by the code (pending becomes that list); with the library done, the list
`[roomTrainingHall]` is allowed by the rule but refused by the code (the player is left
as it was). -/
theorem setResearchTree_acceptance_differs_from_rule :
    (specTreeAllowed exampleGame.researches
        [ResearchType.roomTrainingHall, ResearchType.roomLibrary]
        exampleGame.player.mResearchDone = false ∧
      treeAccepted exampleGame [ResearchType.roomTrainingHall, ResearchType.roomLibrary]
        = true ∧
      (setResearchTree exampleGame
        [ResearchType.roomTrainingHall, ResearchType.roomLibrary]).player.mResearchPending
        = [ResearchType.roomTrainingHall, ResearchType.roomLibrary]) ∧
    (specTreeAllowed libraryDoneGame.researches [ResearchType.roomTrainingHall]
        libraryDoneGame.player.mResearchDone = true ∧
      treeAccepted libraryDoneGame [ResearchType.roomTrainingHall] = false ∧
      (setResearchTree libraryDoneGame [ResearchType.roomTrainingHall]).player
        = libraryDoneGame.player) := by
  decide

/-- C2: on the server side, when some entry of the proposed list is not in the catalog
or fails `canBeResearched` as the validation loop calls it, `setResearchTree` leaves the
player (pending, current, points, done and all) as it was and enqueues no notification;
only one diagnostic is added to the log. -/
theorem setResearchTree_rejected_unchanged (g : Game) (L : List ResearchType)
    (hs : g.gameMap.isServerGameMap = true)
    (hbad : ∃ t ∈ L, findResearch t g.researches = none ∨
      ∃ r, findResearch t g.researches = some r ∧ r.canBeResearched L = false) :
    (setResearchTree g L).player = g.player ∧
      (setResearchTree g L).queue = g.queue ∧
      (setResearchTree g L).gameMap = g.gameMap ∧
      ∃ d, (setResearchTree g L).log = g.log ++ [d] := by
  have hna : ¬ treeAccepted g L = true := by
    rw [treeAccepted_iff]
    intro hall
    obtain ⟨t, ht, hcase⟩ := hbad
    obtain ⟨r, hr, hc⟩ := hall t ht
    rcases hcase with hnone | ⟨r2, hr2, hc2⟩
    · rw [hnone] at hr
      exact Option.noConfusion hr
    · rw [hr2] at hr
      cases hr
      rw [hc] at hc2
      exact Bool.noConfusion hc2
  unfold treeAccepted at hna
  unfold setResearchTree
  simp only [hs, if_true]
  split
  · exact ⟨rfl, rfl, rfl, _, rfl⟩
  · exact ⟨rfl, rfl, rfl, _, rfl⟩
  · rename_i d hd
    rw [hd] at hna
    exact absurd rfl hna

/-- The scenario of C2: the training hall alone, with nothing done, is rejected and the
ledger is unchanged. -/
theorem setResearchTree_rejected_unchanged_witness :
    (setResearchTree exampleGame [ResearchType.roomTrainingHall]).player = exampleGame.player ∧
      (setResearchTree exampleGame [ResearchType.roomTrainingHall]).queue = exampleGame.queue ∧
      (setResearchTree exampleGame [ResearchType.roomTrainingHall]).gameMap
        = exampleGame.gameMap ∧
      ∃ d, (setResearchTree exampleGame [ResearchType.roomTrainingHall]).log
        = exampleGame.log ++ [d] :=
  setResearchTree_rejected_unchanged exampleGame [ResearchType.roomTrainingHall] rfl
    ⟨ResearchType.roomTrainingHall, by decide, Or.inr ⟨trainingHall, by decide, by decide⟩⟩

/-! ## Claims on `setNextResearch` -/

/-- Whether some `ResearchEntity` of the seat among the renderables carries `t`. -/
def carried (renderables : List RenderedMovableEntity) (seat : Option Nat)
    (t : ResearchType) : Bool :=
  renderables.any (fun e =>
    decide (e.objectType = GameEntityType.researchEntity) && decide (e.seat = seat) &&
      decide (e.researchType = t))

/-- Whether a live `ResearchEntity` of the player's seat carries `t`. -/
def hasLiveCarrier (g : Game) (t : ResearchType) : Bool :=
  carried g.gameMap.renderedMovableEntities g.player.mSeat t

/-- The selection in the words of the specification: the first pending entry, in order,
other than `justCompleted` for which no live carrier of the seat exists. -/
def firstSelectable (g : Game) (justCompleted : ResearchType) : Option ResearchType :=
  g.player.mResearchPending.find? (fun t => decide (t ≠ justCompleted) && !hasLiveCarrier g t)

theorem scanRenderables_eq (seat : Option Nat) (t : ResearchType) :
    ∀ (rs : List RenderedMovableEntity) (x : ResearchType),
      scanRenderables seat t rs x =
        if carried rs seat t = true then ResearchType.nullResearchType else x := by
  intro rs
  induction rs with
  | nil => intro x; simp [scanRenderables, carried]
  | cons e rest ih =>
    intro x
    unfold scanRenderables
    have ih2 := ih x
    unfold carried at ih2 ⊢
    by_cases h1 : e.objectType = GameEntityType.researchEntity
    · by_cases h2 : e.seat = seat
      · by_cases h3 : e.researchType = t
        · simp [h1, h2, h3]
        · simp [h1, h2, h3, ih2]
      · simp [h1, h2, ih2]
    · simp [h1, ih2]

/-- What the outer loop returns, entry by entry: the sentinel `nullResearchType` is never
selected, so an entry equal to it is passed over. -/
theorem searchPending_eq (rs : List RenderedMovableEntity) (seat : Option Nat)
    (jc : ResearchType) (l : List ResearchType) :
    searchPending rs seat jc l =
      (l.find? (fun t => decide (t ≠ jc) && !carried rs seat t &&
        decide (t ≠ ResearchType.nullResearchType))).getD ResearchType.nullResearchType := by
  induction l with
  | nil => simp [searchPending]
  | cons a rest ih =>
    unfold searchPending
    by_cases h1 : a = jc
    · simp [h1, ih]
    · simp only [h1, if_false, scanRenderables_eq]
      by_cases h2 : carried rs seat a = true
      · simp [h2, ih, h1]
      · by_cases h3 : a = ResearchType.nullResearchType
        · simp [h2, h3, ih]
        · simp [h1, h2, h3]

theorem find_pending_ne_null (rs : List RenderedMovableEntity) (seat : Option Nat)
    (jc : ResearchType) (l : List ResearchType)
    (hnull : ResearchType.nullResearchType ∉ l) :
    l.find? (fun t => decide (t ≠ jc) && !carried rs seat t &&
        decide (t ≠ ResearchType.nullResearchType)) =
      l.find? (fun t => decide (t ≠ jc) && !carried rs seat t) := by
  induction l with
  | nil => rfl
  | cons a rest ih =>
    have ha : a ≠ ResearchType.nullResearchType := fun h => hnull (by simp [h])
    have hrest : ResearchType.nullResearchType ∉ rest := fun h => hnull (by simp [h])
    simp only [List.find?_cons, ha, ne_eq, not_false_eq_true, decide_True, Bool.and_true]
    rw [ih hrest]

/-- The research selected by `setNextResearch`, for any pending list: the catalog
definition of the first pending entry that is not `researchedType`, is not carried by a
live entity of the seat and is not the sentinel. -/
theorem nextResearch_eq (g : Game) (jc : ResearchType) :
    nextResearch g jc =
      (g.player.mResearchPending.find? (fun t => decide (t ≠ jc) && !hasLiveCarrier g t &&
        decide (t ≠ ResearchType.nullResearchType))).bind
        (fun t => findResearch t g.researches) := by
  unfold nextResearch setNextResearch hasLiveCarrier
  rw [searchPending_eq]
  cases hf : g.player.mResearchPending.find? (fun t => decide (t ≠ jc) &&
      !carried g.gameMap.renderedMovableEntities g.player.mSeat t &&
      decide (t ≠ ResearchType.nullResearchType)) with
  | none => simp
  | some t =>
    have hp := List.find?_some hf
    simp only [ne_eq, Bool.and_eq_true, decide_eq_true_eq] at hp
    simp [hp.2]

/-- C3: `setNextResearch(justCompleted)` sets the current research to the catalog
definition of the first pending entry, in order, that differs from `justCompleted` and
has no live `ResearchEntity` of the player's seat (the pending entries being research
identities, none of them the null identity); and when every pending entry is
`justCompleted` or has such a carrier (so also when pending is empty), the current
research becomes none. -/
theorem setNextResearch_selects_first (g : Game) (justCompleted : ResearchType)
    (hnull : ResearchType.nullResearchType ∉ g.player.mResearchPending) :
    (setNextResearch g justCompleted).player.mCurrentResearch =
        (firstSelectable g justCompleted).bind (fun t => findResearch t g.researches) ∧
      ((∀ t ∈ g.player.mResearchPending, t = justCompleted ∨ hasLiveCarrier g t = true) →
        (setNextResearch g justCompleted).player.mCurrentResearch = none) := by
  have hmain : (setNextResearch g justCompleted).player.mCurrentResearch =
      (firstSelectable g justCompleted).bind (fun t => findResearch t g.researches) := by
    have h := nextResearch_eq g justCompleted
    unfold nextResearch at h
    rw [h]
    unfold firstSelectable hasLiveCarrier
    rw [find_pending_ne_null _ _ _ _ hnull]
  refine ⟨hmain, ?_⟩
  intro hall
  rw [hmain]
  have hnone : firstSelectable g justCompleted = none := by
    unfold firstSelectable
    rw [List.find?_eq_none]
    intro t ht
    rcases hall t ht with h | h
    · simp [h]
    · simp [h]
  rw [hnone]
  rfl

/-- A game with a carrier of the library on the map: the first pending entry is carried,
so the training hall is selected. -/
def carrierGame : Game :=
  { exampleGame with
    gameMap := { isServerGameMap := true
                 renderedMovableEntities :=
                   [{ objectType := GameEntityType.researchEntity, seat := none,
                      researchType := ResearchType.roomLibrary }] }
    player := { exampleGame.player with
      mResearchPending := [ResearchType.roomLibrary, ResearchType.roomTrainingHall] } }

/-- C3 at a concrete game: the library is carried, the training hall is selected. -/
theorem setNextResearch_selects_first_witness :
    (setNextResearch carrierGame ResearchType.nullResearchType).player.mCurrentResearch
      = some trainingHall := by
  have h := (setNextResearch_selects_first carrierGame ResearchType.nullResearchType
    (by decide)).1
  rw [h]
  decide

/-! ## Claims on `addResearchPoints` -/

theorem wrapInt32_of_isInt32 {x : Int} (h : isInt32 x) : wrapInt32 x = x := by
  unfold isInt32 at h
  unfold wrapInt32
  omega

/-- The game of the specification's example: the library (cost 100) is the current
research and no point has been gathered. -/
def libraryCurrentGame : Game := setResearchTree exampleGame [ResearchType.roomLibrary]

/-- C4: with a current research `r` of cost `c` and `p` points gathered, and as long as
the `int32_t` sums do not overflow, `addResearchPoints(n)` returns nothing and sets the
points to `p + n`, leaving the current research as it is, when `p + n < c`; and returns
`r` and sets the points to `p + n - c` when `p + n ≥ c`. -/
theorem addResearchPoints_threshold (g : Game) (r : Research) (n : Int)
    (hcur : g.player.mCurrentResearch = some r)
    (hsum : isInt32 (g.player.mResearchPoints + n)) :
    (g.player.mResearchPoints + n < r.getNeededResearchPoints →
      (addResearchPoints g n).1 = none ∧
      (addResearchPoints g n).2.player.mResearchPoints = g.player.mResearchPoints + n ∧
      (addResearchPoints g n).2.player.mCurrentResearch = some r) ∧
    (r.getNeededResearchPoints ≤ g.player.mResearchPoints + n →
      isInt32 (g.player.mResearchPoints + n - r.getNeededResearchPoints) →
      (addResearchPoints g n).1 = some r ∧
      (addResearchPoints g n).2.player.mResearchPoints
        = g.player.mResearchPoints + n - r.getNeededResearchPoints) := by
  constructor
  · intro hlt
    refine ⟨?_, ?_, ?_⟩ <;>
      simp [addResearchPoints, hcur, wrapInt32_of_isInt32 hsum, hlt]
  · intro hge hdiff
    refine ⟨?_, ?_⟩ <;>
      simp [addResearchPoints, hcur, wrapInt32_of_isInt32 hsum, not_lt.mpr hge,
        wrapInt32_of_isInt32 hdiff, setNextResearch_points]

/-- C4 on the example of the specification: cost 100, no point gathered,
`addResearchPoints(150)` returns the library and leaves 50 points. -/
theorem addResearchPoints_threshold_witness :
    libraryCurrentGame.player.mCurrentResearch = some library ∧
      libraryCurrentGame.player.mResearchPoints = 0 ∧
      library.getNeededResearchPoints = 100 ∧
      (addResearchPoints libraryCurrentGame 150).1 = some library ∧
      (addResearchPoints libraryCurrentGame 150).2.player.mResearchPoints = 50 :=
  ⟨by decide, by decide, by decide,
    (addResearchPoints_threshold libraryCurrentGame library 150 (by decide) (by decide)).2
      (by decide) (by decide)⟩

/-- C5: with no current research, `addResearchPoints(n)` returns nothing and changes
nothing at all, whatever `n`. -/
theorem addResearchPoints_idle (g : Game) (n : Int)
    (hcur : g.player.mCurrentResearch = none) :
    addResearchPoints g n = (none, g) := by
  unfold addResearchPoints
  simp only [hcur]

/-- C5 on the fresh example game. -/
theorem addResearchPoints_idle_witness :
    exampleGame.player.mCurrentResearch = none ∧
      addResearchPoints exampleGame 150 = (none, exampleGame) :=
  ⟨by decide, addResearchPoints_idle exampleGame 150 (by decide)⟩

theorem addResearchPoints_done (g : Game) (n : Int) :
    (addResearchPoints g n).2.player.mResearchDone = g.player.mResearchDone := by
  cases hcur : g.player.mCurrentResearch with
  | none => simp [addResearchPoints, hcur]
  | some cur =>
    by_cases hlt : wrapInt32 (g.player.mResearchPoints + n) < cur.getNeededResearchPoints
    · simp [addResearchPoints, hcur, hlt]
    · simp [addResearchPoints, hcur, hlt, setNextResearch_done]

theorem addResearchPoints_pending (g : Game) (n : Int) :
    (addResearchPoints g n).2.player.mResearchPending = g.player.mResearchPending := by
  cases hcur : g.player.mCurrentResearch with
  | none => simp [addResearchPoints, hcur]
  | some cur =>
    by_cases hlt : wrapInt32 (g.player.mResearchPoints + n) < cur.getNeededResearchPoints
    · simp [addResearchPoints, hcur, hlt]
    · simp [addResearchPoints, hcur, hlt, setNextResearch_pending]

/-- C6: `addResearchPoints` never inserts into the done list: for every state and every
`n` the done list after the call is the done list before it, also when the call completes
the current research and returns its definition. -/
theorem addResearchPoints_never_inserts_into_done (g : Game) (n : Int) :
    (addResearchPoints g n).2.player.mResearchDone = g.player.mResearchDone := by
  cases hcur : g.player.mCurrentResearch with
  | none => simp [addResearchPoints, hcur]
  | some cur =>
    by_cases hlt : wrapInt32 (g.player.mResearchPoints + n) < cur.getNeededResearchPoints
    · simp [addResearchPoints, hcur, hlt]
    · simp [addResearchPoints, hcur, hlt, setNextResearch_done]

/-! ## Frame lemmas of `setResearchesDone` and `setResearchTree` -/

theorem setResearchesDone_done (g : Game) (L : List ResearchType) :
    (setResearchesDone g L).player.mResearchDone = L := by
  cases hs : g.gameMap.isServerGameMap <;> cases hh : g.player.mIsHuman <;>
    simp [setResearchesDone, hs, hh]

theorem setResearchesDone_pending (g : Game) (L : List ResearchType) :
    (setResearchesDone g L).player.mResearchPending
      = erasePending g.player.mResearchPending L := by
  cases hs : g.gameMap.isServerGameMap <;> cases hh : g.player.mIsHuman <;>
    simp [setResearchesDone, hs, hh]

theorem setResearchesDone_current (g : Game) (L : List ResearchType) :
    (setResearchesDone g L).player.mCurrentResearch = g.player.mCurrentResearch := by
  cases hs : g.gameMap.isServerGameMap <;> cases hh : g.player.mIsHuman <;>
    simp [setResearchesDone, hs, hh]

theorem setResearchesDone_points (g : Game) (L : List ResearchType) :
    (setResearchesDone g L).player.mResearchPoints = g.player.mResearchPoints := by
  cases hs : g.gameMap.isServerGameMap <;> cases hh : g.player.mIsHuman <;>
    simp [setResearchesDone, hs, hh]

theorem setResearchTree_done (g : Game) (L : List ResearchType) :
    (setResearchTree g L).player.mResearchDone = g.player.mResearchDone := by
  unfold setResearchTree
  split_ifs
  · split
    · rfl
    · rfl
    · rw [setNextResearch_done]
      split <;> rfl
  · rfl

/-- The pending list after `setResearchTree`: the proposed list, or the old one when the
server refuses the proposal. -/
theorem setResearchTree_pending_cases (g : Game) (L : List ResearchType) :
    (setResearchTree g L).player.mResearchPending = L ∨
      ((setResearchTree g L).player.mResearchPending = g.player.mResearchPending ∧
        (setResearchTree g L).player.mCurrentResearch = g.player.mCurrentResearch ∧
        g.gameMap.isServerGameMap = true) := by
  unfold setResearchTree
  split_ifs with hs
  · split
    · exact Or.inr ⟨rfl, rfl, hs⟩
    · exact Or.inr ⟨rfl, rfl, hs⟩
    · left
      rw [setNextResearch_pending]
      split <;> rfl
  · exact Or.inl rfl

theorem erasePending_sublist (L : List ResearchType) :
    ∀ pending : List ResearchType, (erasePending pending L).Sublist pending := by
  induction L with
  | nil => intro pending; exact List.Sublist.refl _
  | cons a rest ih =>
    intro pending
    unfold erasePending at ih ⊢
    rw [List.foldl_cons]
    exact (ih (pending.erase a)).trans (List.erase_sublist a pending)

theorem erasePending_not_mem (L : List ResearchType) :
    ∀ pending : List ResearchType, pending.Nodup → ∀ t ∈ L, t ∉ erasePending pending L := by
  induction L with
  | nil => intro pending _ t ht; simp at ht
  | cons a rest ih =>
    intro pending hnd t ht
    have hnd2 : (pending.erase a).Nodup := hnd.erase a
    have hunf : erasePending pending (a :: rest) = erasePending (pending.erase a) rest := by
      unfold erasePending
      rw [List.foldl_cons]
    rw [hunf]
    rcases List.mem_cons.mp ht with h | h
    · subst h
      intro hmem
      have h2 : t ∈ pending.erase t := (erasePending_sublist rest _).subset hmem
      exact (hnd.mem_erase_iff.mp h2).1 rfl
    · exact ih _ hnd2 t h

/-! ## The ledger invariants -/

/-- Whenever there is a current research, the points gathered are below its cost. -/
def pointsBelowCost (g : Game) : Prop :=
  ∀ r, g.player.mCurrentResearch = some r →
    g.player.mResearchPoints < r.getNeededResearchPoints

/-- No research is both done and pending. -/
def doneDisjointPending (g : Game) : Prop :=
  ∀ t, t ∈ g.player.mResearchDone → t ∉ g.player.mResearchPending

/-- The current research, if any, is the definition of a pending research. -/
def currentInPending (g : Game) : Prop :=
  ∀ r, g.player.mCurrentResearch = some r → r.getType ∈ g.player.mResearchPending

/-- C7, as stated, fails: from a fresh player, after the tree `[roomLibrary,
roomTrainingHall]` is accepted, `addResearchPoints(150)` completes the library (cost
100) and carries 50 points over to the training hall, whose cost is 30. -/
theorem pointsBelowCost_fails_after_completion :
    ¬ pointsBelowCost (runOps exampleGame
      [LedgerOp.setResearchTree [ResearchType.roomLibrary, ResearchType.roomTrainingHall],
       LedgerOp.addResearchPoints 150]) := by
  intro h
  have h2 := h trainingHall (by decide)
  revert h2
  decide

/-- C7, amended: right after an `addResearchPoints` call that returns nothing, the points
are below the cost of the current research whenever there is one; and `addResearch` and
`setResearchesDone` keep this property, as they touch neither the points nor the current
research. -/
theorem pointsBelowCost_when_nothing_completed (g : Game) :
    (∀ n, (addResearchPoints g n).1 = none → pointsBelowCost (addResearchPoints g n).2) ∧
    (pointsBelowCost g → ∀ t, pointsBelowCost (addResearch g t).2) ∧
    (pointsBelowCost g → ∀ L, pointsBelowCost (setResearchesDone g L)) := by
  refine ⟨?_, ?_, ?_⟩
  · intro n hnone r hr
    cases hcur : g.player.mCurrentResearch with
    | none =>
      simp [addResearchPoints, hcur] at hr
    | some cur =>
      by_cases hlt : wrapInt32 (g.player.mResearchPoints + n) < cur.getNeededResearchPoints
      · simp only [addResearchPoints, hcur, hlt, if_true] at hr ⊢
        cases hr
        exact hlt
      · simp [addResearchPoints, hcur, hlt] at hnone
  · intro hinv t r hr
    unfold addResearch at hr ⊢
    split_ifs at hr ⊢ with hmem
    · exact hinv r hr
    · simp only [setResearchesDone_current, setResearchesDone_points] at hr ⊢
      exact hinv r hr
  · intro hinv L r hr
    simp only [setResearchesDone_current, setResearchesDone_points] at hr ⊢
    exact hinv r hr

/-- C7, amended, on the example: with the library current and no point gathered,
`addResearchPoints(50)` returns nothing and the 50 points are below the cost. -/
theorem pointsBelowCost_when_nothing_completed_witness :
    (addResearchPoints libraryCurrentGame 50).1 = none ∧
      pointsBelowCost (addResearchPoints libraryCurrentGame 50).2 :=
  ⟨by decide,
    (pointsBelowCost_when_nothing_completed libraryCurrentGame).1 50 (by decide)⟩

/-- C8, as stated, fails: `setResearchTree` does not compare the proposed list with the
done list, so from a fresh player `setResearchesDone([roomLibrary])` followed by
`setResearchTree([roomLibrary])` leaves the library both done and pending; and
`setResearchesDone` erases one occurrence only, so after the accepted tree
`[roomLibrary, roomLibrary]` a `setResearchesDone([roomLibrary])` leaves one behind. -/
theorem doneDisjointPending_fails :
    ¬ doneDisjointPending (runOps exampleGame
        [LedgerOp.setResearchesDone [ResearchType.roomLibrary],
         LedgerOp.setResearchTree [ResearchType.roomLibrary]]) ∧
    ¬ doneDisjointPending (runOps exampleGame
        [LedgerOp.setResearchTree [ResearchType.roomLibrary, ResearchType.roomLibrary],
         LedgerOp.setResearchesDone [ResearchType.roomLibrary]]) := by
  constructor
  · intro h
    exact h ResearchType.roomLibrary (by decide) (by decide)
  · intro h
    exact h ResearchType.roomLibrary (by decide) (by decide)

/-- The invariant that the ledger operations do keep: no research is pending twice and
none is both done and pending. -/
def ledgerWellFormed (g : Game) : Prop :=
  g.player.mResearchPending.Nodup ∧ doneDisjointPending g

/-- A call is admissible in a state when, if it is `setResearchTree`, the proposed list
has no repeated entry and no entry that is already done. -/
def admissibleOp (g : Game) (op : LedgerOp) : Prop :=
  ∀ L, op = LedgerOp.setResearchTree L →
    L.Nodup ∧ ∀ t ∈ L, t ∉ g.player.mResearchDone

/-- A run is admissible when each of its calls is admissible in the state it meets. -/
def admissibleRun : Game → List LedgerOp → Prop
  | _, [] => True
  | g, op :: rest => admissibleOp g op ∧ admissibleRun (applyOp g op) rest

theorem ledgerWellFormed_applyOp (g : Game) (op : LedgerOp)
    (hwf : ledgerWellFormed g) (hadm : admissibleOp g op) :
    ledgerWellFormed (applyOp g op) := by
  obtain ⟨hnd, hdisj⟩ := hwf
  have hdone : ∀ L, ledgerWellFormed (setResearchesDone g L) := by
    intro L
    unfold ledgerWellFormed doneDisjointPending
    rw [setResearchesDone_done, setResearchesDone_pending]
    exact ⟨hnd.sublist (erasePending_sublist L _), erasePending_not_mem L _ hnd⟩
  cases op with
  | setResearchTree L =>
    obtain ⟨hL, hLd⟩ := hadm L rfl
    unfold ledgerWellFormed doneDisjointPending
    simp only [applyOp, setResearchTree_done]
    rcases setResearchTree_pending_cases g L with h | ⟨h, _, _⟩
    · rw [h]
      exact ⟨hL, fun t ht hmem => hLd t hmem ht⟩
    · rw [h]
      exact ⟨hnd, hdisj⟩
  | setNextResearch t =>
    unfold ledgerWellFormed doneDisjointPending
    simp only [applyOp, setNextResearch_done, setNextResearch_pending]
    exact ⟨hnd, hdisj⟩
  | addResearchPoints n =>
    unfold ledgerWellFormed doneDisjointPending
    simp only [applyOp, addResearchPoints_done, addResearchPoints_pending]
    exact ⟨hnd, hdisj⟩
  | addResearch t =>
    simp only [applyOp, addResearch]
    split_ifs
    · exact ⟨hnd, hdisj⟩
    · exact hdone _
  | setResearchesDone L =>
    exact hdone L

/-- C8, amended: starting from a ledger in which no research is pending twice and none is
both done and pending (a fresh player, for one), done and pending are disjoint after every
run of ledger operations, provided each list handed to `setResearchTree` has no repeated
entry and no entry that is done at the time of the call. -/
theorem doneDisjointPending_of_admissibleRun (ops : List LedgerOp) :
    ∀ g : Game, ledgerWellFormed g → admissibleRun g ops →
      doneDisjointPending (runOps g ops) ∧ (runOps g ops).player.mResearchPending.Nodup := by
  induction ops with
  | nil =>
    intro g hwf _
    exact ⟨hwf.2, hwf.1⟩
  | cons op rest ih =>
    intro g hwf hadm
    have hstep := ledgerWellFormed_applyOp g op hwf hadm.1
    have := ih (applyOp g op) hstep hadm.2
    simpa [runOps] using this

/-- C8, amended, on a run from the fresh player: the tree is accepted, the library is
completed and delivered, and a list with a repeated entry is given as done. -/
theorem doneDisjointPending_of_admissibleRun_witness :
    doneDisjointPending (runOps exampleGame
        [LedgerOp.setResearchTree [ResearchType.roomLibrary, ResearchType.roomTrainingHall],
         LedgerOp.addResearchPoints 150,
         LedgerOp.addResearch ResearchType.roomLibrary,
         LedgerOp.setResearchesDone
           [ResearchType.roomLibrary, ResearchType.roomTreasury, ResearchType.roomLibrary]])
      ∧ (runOps exampleGame
        [LedgerOp.setResearchTree [ResearchType.roomLibrary, ResearchType.roomTrainingHall],
         LedgerOp.addResearchPoints 150,
         LedgerOp.addResearch ResearchType.roomLibrary,
         LedgerOp.setResearchesDone
           [ResearchType.roomLibrary, ResearchType.roomTreasury, ResearchType.roomLibrary]]
        ).player.mResearchPending.Nodup :=
  doneDisjointPending_of_admissibleRun _ exampleGame
    ⟨by decide, fun t ht => by simp [exampleGame, freshGame, Player.new] at ht⟩
    ⟨fun L hL => (by cases hL; exact ⟨by decide, by decide⟩),
     fun L hL => (by cases hL),
     fun L hL => (by cases hL),
     fun L hL => (by cases hL),
     trivial⟩

/-- C9, as stated, fails: `setResearchesDone` erases from the pending list but leaves the
current research as it is. From a fresh player, after `setResearchTree([roomLibrary])`
the library is current; `setResearchesDone([roomLibrary])` then empties the pending list
and the library is still current. -/
theorem currentInPending_fails_after_setResearchesDone :
    ¬ currentInPending (runOps exampleGame
      [LedgerOp.setResearchTree [ResearchType.roomLibrary],
       LedgerOp.setResearchesDone [ResearchType.roomLibrary]]) := by
  intro h
  have h2 := h library (by decide)
  revert h2
  decide

theorem currentInPending_setNextResearch (g : Game) (t : ResearchType) :
    currentInPending (setNextResearch g t) := by
  intro r hr
  rw [setNextResearch_pending]
  have h := nextResearch_eq g t
  unfold nextResearch at h
  rw [h] at hr
  obtain ⟨x, hx, hfx⟩ := Option.bind_eq_some.mp hr
  have hmem := List.mem_of_find?_eq_some hx
  have hty := findResearch_getType hfx
  unfold Research.getType
  rw [hty]
  exact hmem

/-! ## Claims on `addResearch` -/

/-- C10: `addResearch` is idempotent. If the research is already done, the call returns
false and leaves the whole game as it was (done, pending, current, points, and the
notification queue); and in every state a second `addResearch` of the same research
returns false and leaves the state reached by the first. -/
theorem addResearch_idempotent (g : Game) (node : ResearchType) :
    (node ∈ g.player.mResearchDone → addResearch g node = (false, g)) ∧
    addResearch (addResearch g node).2 node = (false, (addResearch g node).2) := by
  have hfirst : ∀ g' : Game, node ∈ g'.player.mResearchDone →
      addResearch g' node = (false, g') := by
    intro g' hmem
    unfold addResearch
    simp only [hmem, if_true]
  refine ⟨hfirst g, ?_⟩
  apply hfirst
  unfold addResearch
  split_ifs with hmem
  · exact hmem
  · rw [setResearchesDone_done]
    simp

/-- A server-side game with a human player whose library is done. -/
def humanLibraryDoneGame : Game :=
  setResearchesDone { exampleGame with player := { exampleGame.player with mIsHuman := true } }
    [ResearchType.roomLibrary]

/-- C10 at a concrete game: the library is done, `addResearch(roomLibrary)` is refused and
nothing is enqueued; the training hall is inserted once and refused the second time. -/
theorem addResearch_idempotent_witness :
    ResearchType.roomLibrary ∈ humanLibraryDoneGame.player.mResearchDone ∧
      addResearch humanLibraryDoneGame ResearchType.roomLibrary
        = (false, humanLibraryDoneGame) ∧
      (addResearch humanLibraryDoneGame ResearchType.roomTrainingHall).1 = true ∧
      addResearch (addResearch humanLibraryDoneGame ResearchType.roomTrainingHall).2
          ResearchType.roomTrainingHall
        = (false, (addResearch humanLibraryDoneGame ResearchType.roomTrainingHall).2) :=
  ⟨by decide,
    (addResearch_idempotent humanLibraryDoneGame ResearchType.roomLibrary).1 (by decide),
    by decide,
    (addResearch_idempotent humanLibraryDoneGame ResearchType.roomTrainingHall).2⟩

/-! ## What `addResearch` and `setResearchesDone` do to the pending list -/

theorem erasePending_append (pending L M : List ResearchType) :
    erasePending pending (L ++ M) = erasePending (erasePending pending L) M := by
  unfold erasePending
  rw [List.foldl_append]

theorem erasePending_cons (pending : List ResearchType) (a : ResearchType)
    (L : List ResearchType) :
    erasePending pending (a :: L) = erasePending (pending.erase a) L := by
  unfold erasePending
  rw [List.foldl_cons]

theorem erasePending_of_not_mem (L : List ResearchType) :
    ∀ pending : List ResearchType, (∀ t ∈ L, t ∉ pending) → erasePending pending L = pending := by
  induction L with
  | nil => intro pending _; rfl
  | cons a rest ih =>
    intro pending h
    rw [erasePending_cons, List.erase_of_not_mem (h a (by simp))]
    exact ih pending (fun t ht => h t (by simp [ht]))

theorem erasePending_eq_filter (L : List ResearchType) :
    ∀ pending : List ResearchType, pending.Nodup →
      erasePending pending L = pending.filter (fun t => decide (t ∉ L)) := by
  induction L with
  | nil => intro pending _; simp [erasePending]
  | cons a rest ih =>
    intro pending hnd
    rw [erasePending_cons, ih _ (hnd.erase a), hnd.erase_eq_filter a, List.filter_filter]
    apply List.filter_congr
    intro x _
    by_cases hx : x = a
    · simp [hx]
    · by_cases hr : x ∈ rest
      · simp [hx, hr]
      · simp [hx, hr]

/-- The example game after the tree `[roomLibrary, roomLibrary]` has been accepted: the
library is pending twice. -/
def libraryTwiceGame : Game :=
  setResearchTree exampleGame [ResearchType.roomLibrary, ResearchType.roomLibrary]

/-- C11, as stated, fails: `addResearch` erases one occurrence only. With the library
pending twice and not done, `addResearch(roomLibrary)` returns true and the library is
still pending afterwards. -/
theorem addResearch_leaves_repeated_entry :
    ResearchType.roomLibrary ∉ libraryTwiceGame.player.mResearchDone ∧
      (addResearch libraryTwiceGame ResearchType.roomLibrary).1 = true ∧
      ResearchType.roomLibrary ∈
        (addResearch libraryTwiceGame ResearchType.roomLibrary).2.player.mResearchPending := by
  decide

/-- C11, amended: if the research is not done, `addResearch` returns true, the done list
afterwards is the old one with the research appended, and the pending list afterwards is
the old one with the first occurrence of each done research and of the new one erased,
the entries left being in their previous relative order. When no research was pending
twice, the new one is not pending afterwards; when moreover none was both done and
pending, the pending list afterwards is the old one without the new research. -/
theorem addResearch_inserts (g : Game) (node : ResearchType)
    (hnew : node ∉ g.player.mResearchDone) :
    (addResearch g node).1 = true ∧
      (addResearch g node).2.player.mResearchDone = g.player.mResearchDone ++ [node] ∧
      (addResearch g node).2.player.mResearchPending
        = erasePending g.player.mResearchPending (g.player.mResearchDone ++ [node]) ∧
      ((addResearch g node).2.player.mResearchPending).Sublist g.player.mResearchPending ∧
      (g.player.mResearchPending.Nodup →
        node ∉ (addResearch g node).2.player.mResearchPending) ∧
      (g.player.mResearchPending.Nodup → doneDisjointPending g →
        (addResearch g node).2.player.mResearchPending
          = g.player.mResearchPending.filter (fun t => decide (t ≠ node))) := by
  have hres : addResearch g node
      = (true, setResearchesDone g (g.player.mResearchDone ++ [node])) := by
    unfold addResearch
    simp only [hnew, if_false]
  rw [hres]
  simp only [setResearchesDone_done, setResearchesDone_pending]
  refine ⟨trivial, trivial, trivial, erasePending_sublist _ _, ?_, ?_⟩
  · intro hnd
    exact erasePending_not_mem _ _ hnd node (by simp)
  · intro hnd hdisj
    rw [erasePending_append, erasePending_of_not_mem _ _ hdisj, erasePending_cons]
    have hnil : ∀ l : List ResearchType, erasePending l [] = l := fun _ => rfl
    rw [hnil, hnd.erase_eq_filter node]
    apply List.filter_congr
    intro x _
    by_cases hx : x = node <;> simp [hx]

/-- C11, amended, on the example: with the tree `[roomLibrary, roomTrainingHall]` pending
and nothing done, `addResearch(roomLibrary)` returns true, the library is done and the
training hall alone is pending. -/
theorem addResearch_inserts_witness :
    (addResearch (setResearchTree exampleGame
        [ResearchType.roomLibrary, ResearchType.roomTrainingHall])
        ResearchType.roomLibrary).1 = true ∧
      (addResearch (setResearchTree exampleGame
        [ResearchType.roomLibrary, ResearchType.roomTrainingHall])
        ResearchType.roomLibrary).2.player.mResearchDone = [ResearchType.roomLibrary] ∧
      (addResearch (setResearchTree exampleGame
        [ResearchType.roomLibrary, ResearchType.roomTrainingHall])
        ResearchType.roomLibrary).2.player.mResearchPending
        = [ResearchType.roomTrainingHall] := by
  have h := addResearch_inserts (setResearchTree exampleGame
    [ResearchType.roomLibrary, ResearchType.roomTrainingHall]) ResearchType.roomLibrary
    (by decide)
  refine ⟨h.1, ?_, ?_⟩
  · rw [h.2.1]
    decide
  · rw [h.2.2.1]
    decide

/-- C12, as stated, fails: `setResearchesDone` erases one occurrence per entry of the done
list. With the library pending twice, `setResearchesDone([roomLibrary])` leaves the
library, which occurs in the done list, pending once. -/
theorem setResearchesDone_leaves_repeated_entry :
    (setResearchesDone libraryTwiceGame [ResearchType.roomLibrary]).player.mResearchDone
        = [ResearchType.roomLibrary] ∧
      ResearchType.roomLibrary ∈
        (setResearchesDone libraryTwiceGame
          [ResearchType.roomLibrary]).player.mResearchPending := by
  decide

/-- C12, amended: after `setResearchesDone(doneList)` the done list is `doneList` as
given; the pending list is the old one with, for each entry of `doneList` in turn, the
first occurrence erased if there is one, the entries left being in their previous relative
order; when no research was pending twice, this is the old pending list without the
entries that occur in `doneList`. The current research and the points are unchanged. -/
theorem setResearchesDone_replaces_done (g : Game) (doneList : List ResearchType) :
    (setResearchesDone g doneList).player.mResearchDone = doneList ∧
      (setResearchesDone g doneList).player.mResearchPending
        = erasePending g.player.mResearchPending doneList ∧
      ((setResearchesDone g doneList).player.mResearchPending).Sublist
        g.player.mResearchPending ∧
      (g.player.mResearchPending.Nodup →
        (setResearchesDone g doneList).player.mResearchPending
          = g.player.mResearchPending.filter (fun t => decide (t ∉ doneList))) ∧
      (setResearchesDone g doneList).player.mCurrentResearch = g.player.mCurrentResearch ∧
      (setResearchesDone g doneList).player.mResearchPoints = g.player.mResearchPoints := by
  simp only [setResearchesDone_done, setResearchesDone_pending, setResearchesDone_current,
    setResearchesDone_points]
  exact ⟨trivial, trivial, erasePending_sublist _ _, erasePending_eq_filter _ _, trivial,
    trivial⟩

/-- C12, amended, on the example: with `[roomLibrary, roomTrainingHall]` pending, a done
list that names the library twice leaves the training hall pending. -/
theorem setResearchesDone_replaces_done_witness :
    (setResearchesDone (setResearchTree exampleGame
        [ResearchType.roomLibrary, ResearchType.roomTrainingHall])
        [ResearchType.roomLibrary, ResearchType.roomTreasury,
          ResearchType.roomLibrary]).player.mResearchPending
      = [ResearchType.roomTrainingHall] := by
  rw [(setResearchesDone_replaces_done _ _).2.2.2.1 (by decide)]
  decide

/-! ## The re-selection done by `setResearchTree` -/

theorem find?_congr_of_mem {α : Type} (p q : α → Bool) :
    ∀ l : List α, (∀ x ∈ l, p x = q x) → l.find? p = l.find? q := by
  intro l
  induction l with
  | nil => intro _; rfl
  | cons a rest ih =>
    intro h
    have ha : p a = q a := h a (by simp)
    have hrest := ih (fun x hx => h x (by simp [hx]))
    simp only [List.find?_cons, ha, hrest]

/-- On the server side an accepted list is made pending and the current research is
selected afresh, with no research named as just completed. -/
theorem setResearchTree_accepted_current (g : Game) (L : List ResearchType)
    (hs : g.gameMap.isServerGameMap = true) (ha : treeAccepted g L = true) :
    (setResearchTree g L).player.mCurrentResearch
      = nextResearch { g with player := { g.player with mResearchPending := L } }
          ResearchType.nullResearchType := by
  unfold treeAccepted at ha
  unfold setResearchTree
  simp only [hs, if_true]
  split
  · simp_all
  · simp_all
  · by_cases hsp : searchPending g.gameMap.renderedMovableEntities g.player.mSeat
        ResearchType.nullResearchType L = ResearchType.nullResearchType <;>
      cases hh : g.player.mIsHuman <;>
      simp [hh, hsp, nextResearch, setNextResearch]

/-- C14: on the server side, after an accepted `setResearchTree(L)` (the entries of `L`
being research identities, none of them the null identity) the pending list is `L` and
the current research has been selected by `setNextResearch(nullResearchType)`: it is the
catalog definition of the first entry of `L` that no live `ResearchEntity` of the seat
carries. With no such carrier on the map and `L` not empty, it is the definition of the
first entry of `L`. -/
theorem setResearchTree_accepted_selects (g : Game) (L : List ResearchType)
    (hs : g.gameMap.isServerGameMap = true) (ha : treeAccepted g L = true)
    (hnull : ResearchType.nullResearchType ∉ L) :
    (setResearchTree g L).player.mResearchPending = L ∧
      (setResearchTree g L).player.mCurrentResearch
        = (L.find? (fun t => !hasLiveCarrier g t)).bind
            (fun t => findResearch t g.researches) ∧
      ((∀ t, hasLiveCarrier g t = false) → ∀ first rest, L = first :: rest →
        ∃ r, findResearch first g.researches = some r ∧ r.getType = first ∧
          (setResearchTree g L).player.mCurrentResearch = some r) := by
  have hcur : (setResearchTree g L).player.mCurrentResearch
      = (L.find? (fun t => !hasLiveCarrier g t)).bind
          (fun t => findResearch t g.researches) := by
    rw [setResearchTree_accepted_current g L hs ha, nextResearch_eq]
    have hfind : L.find? (fun t => decide (t ≠ ResearchType.nullResearchType) &&
          !hasLiveCarrier g t && decide (t ≠ ResearchType.nullResearchType))
        = L.find? (fun t => !hasLiveCarrier g t) := by
      apply find?_congr_of_mem
      intro x hx
      have hxn : x ≠ ResearchType.nullResearchType := fun h => hnull (h ▸ hx)
      simp [hxn]
    exact congrArg (fun o => Option.bind o (fun t => findResearch t g.researches)) hfind
  refine ⟨setResearchTree_accepted_pending g L hs ha, hcur, ?_⟩
  intro hnone first rest hL
  obtain ⟨r, hr, _⟩ := (treeAccepted_iff g L).mp ha first (by simp [hL])
  refine ⟨r, hr, findResearch_getType hr, ?_⟩
  rw [hcur, hL]
  simp [List.find?_cons, hnone first, hr]

/-- C14 on the scenario of the specification: the training hall requires the library,
`setResearchTree([library, trainingHall])` makes both pending and the library current. -/
theorem setResearchTree_accepted_selects_witness :
    (setResearchTree exampleGame
        [ResearchType.roomLibrary, ResearchType.roomTrainingHall]).player.mResearchPending
        = [ResearchType.roomLibrary, ResearchType.roomTrainingHall] ∧
      (setResearchTree exampleGame
        [ResearchType.roomLibrary, ResearchType.roomTrainingHall]).player.mCurrentResearch
        = some library := by
  have h := setResearchTree_accepted_selects exampleGame
    [ResearchType.roomLibrary, ResearchType.roomTrainingHall] (by decide) (by decide)
    (by decide)
  refine ⟨h.1, ?_⟩
  rw [h.2.1]
  decide

/-- C15: on a game map that is not the server's, `setResearchTree(L)` validates nothing:
whatever `L`, the pending list afterwards is `L`, the refresh flag of the pending list is
raised, and nothing else changes. -/
theorem setResearchTree_client_replaces (g : Game) (L : List ResearchType)
    (hc : g.gameMap.isServerGameMap = false) :
    (setResearchTree g L).player.mResearchPending = L ∧
      setResearchTree g L = { g with player := { g.player with
        mResearchPending := L
        mNeedRefreshGuiResearchPending := true } } := by
  unfold setResearchTree
  simp [hc]

/-- The example game on the client side. -/
def clientGame : Game := freshGame false exampleResearches

/-- C15 on a list the server refuses: the training hall alone, with nothing done, is
rejected on the server side and made pending on the client side. -/
theorem setResearchTree_client_replaces_witness :
    treeAccepted clientGame [ResearchType.roomTrainingHall] = false ∧
      (setResearchTree clientGame [ResearchType.roomTrainingHall]).player.mResearchPending
        = [ResearchType.roomTrainingHall] :=
  ⟨by decide,
    (setResearchTree_client_replaces clientGame [ResearchType.roomTrainingHall]
      (by decide)).1⟩

/-! ## Visibility notification of spells (`source/spell/Spell.cpp`)

A `Seat*` is the identity of a seat, a natural number. -/

/-- Modelled from the spec: the class `Seat` (`game/Seat.h`) is missing from the sources.
What `notifySeatsWithVision` asks of seats is taken as given: `isAlliedSeat` and
`getAlliedSeats` of each seat, and the player of each seat (`none` for `nullptr`). -/
structure SeatTable where
  isAlliedSeat : Nat → Nat → Bool
  getAlliedSeats : Nat → List Nat
  getPlayer : Nat → Option Player

/-- The two views of the alliances of a seat agree: of the seats other than the seat
itself, `isAlliedSeat` holds of those that `getAlliedSeats` lists, and of no other.
Nothing is asked about the seat itself: `isAlliedSeat` may hold of it (a seat is allied
to itself) while `getAlliedSeats` lists the other seats only, which is why
`notifySeatsWithVision` pushes the caster's seat onto the list by hand. -/
def alliancesAgree (w : SeatTable) (owner : Nat) : Prop :=
  ∀ s, s ≠ owner → (w.isAlliedSeat owner s = true ↔ s ∈ w.getAlliedSeats owner)

/-- An event fired to a seat: `fireRemoveEntity(seat)` or `fireAddEntity(seat, false)`. -/
inductive VisionEvent where
  | removeEntity (seat : Nat)
  | addEntity (seat : Nat)
  deriving DecidableEq, Repr

/-- The seat an event is fired to. -/
def VisionEvent.seat : VisionEvent → Nat
  | VisionEvent.removeEntity seat => seat
  | VisionEvent.addEntity seat => seat

/-- The members of `Spell` that `Spell.cpp` reads and writes: the seat of the caster, the
turns left and the seats that have been notified of the spell. -/
structure Spell where
  mSeat : Nat
  mNbTurns : Int
  mSeatsWithVisionNotified : List Nat
  deriving DecidableEq, Repr

/-- The test before every event: the seat has a player and the player is human. -/
def firesTo (w : SeatTable) (seat : Nat) : Bool :=
  match w.getPlayer seat with
  | none => false
  | some player => if !player.mIsHuman then false else true

/-- The first loop of `notifySeatsWithVision`, over the record: a seat stays when it is
in `seats`, is the caster's seat or is allied to it; otherwise it is erased and, if it
has a human player, a remove event is fired. The result is the record left and the
events in the order fired. -/
def loseVision (w : SeatTable) (owner : Nat) (seats : List Nat) :
    List Nat → List Nat × List VisionEvent
  | [] => ([], [])
  | seat :: rest =>
    let r := loseVision w owner seats rest
    if seat ∈ seats then (seat :: r.1, r.2)
    else if owner = seat then (seat :: r.1, r.2)
    else if w.isAlliedSeat owner seat then (seat :: r.1, r.2)
    else if firesTo w seat then (r.1, VisionEvent.removeEntity seat :: r.2)
    else (r.1, r.2)

/-- The second and third loops of `notifySeatsWithVision`, over a list of seats: a seat
not yet in the record is pushed to its back and, if it has a human player, an add event
is fired. The state is the record and the events fired so far. -/
def gainVision (w : SeatTable) :
    List Nat → List Nat × List VisionEvent → List Nat × List VisionEvent
  | [], st => st
  | seat :: rest, st =>
    if seat ∈ st.1 then gainVision w rest st
    else if firesTo w seat then
      gainVision w rest (st.1 ++ [seat], st.2 ++ [VisionEvent.addEntity seat])
    else gainVision w rest (st.1 ++ [seat], st.2)

/-- `Spell::notifySeatsWithVision`: the spell afterwards and the events fired. -/
def notifySeatsWithVision (w : SeatTable) (spell : Spell) (seats : List Nat) :
    Spell × List VisionEvent :=
  let lost := loseVision w spell.mSeat seats spell.mSeatsWithVisionNotified
  let gained := gainVision w seats lost
  let alliedSeats := w.getAlliedSeats spell.mSeat ++ [spell.mSeat]
  let allied := gainVision w alliedSeats gained
  ({ spell with mSeatsWithVisionNotified := allied.1 }, allied.2)

/-- The new observer set in the words of the specification: the seats given, the seat of
the caster and the seats allied to it. -/
def newObservers (w : SeatTable) (spell : Spell) (seats : List Nat) : List Nat :=
  seats ++ w.getAlliedSeats spell.mSeat ++ [spell.mSeat]

/-- The test of the first loop for a seat to stay in the record. -/
def keepsVision (w : SeatTable) (owner : Nat) (seats : List Nat) (seat : Nat) : Bool :=
  decide (seat ∈ seats) || decide (owner = seat) || w.isAlliedSeat owner seat

theorem loseVision_record (w : SeatTable) (owner : Nat) (seats : List Nat) :
    ∀ R : List Nat, (loseVision w owner seats R).1 = R.filter (keepsVision w owner seats) := by
  intro R
  induction R with
  | nil => rfl
  | cons a rest ih =>
    unfold loseVision
    by_cases h1 : a ∈ seats
    · simp [h1, ih, keepsVision]
    · by_cases h2 : owner = a
      · subst h2
        simp [h1, ih, keepsVision]
      · cases h3 : w.isAlliedSeat owner a
        · cases h4 : firesTo w a <;> simp [h1, h2, h3, h4, ih, keepsVision]
        · simp [h1, h2, h3, ih, keepsVision]

theorem loseVision_events (w : SeatTable) (owner : Nat) (seats : List Nat) :
    ∀ R : List Nat, (loseVision w owner seats R).2
      = (R.filter (fun s => !keepsVision w owner seats s && firesTo w s)).map
          VisionEvent.removeEntity := by
  intro R
  induction R with
  | nil => rfl
  | cons a rest ih =>
    unfold loseVision
    by_cases h1 : a ∈ seats
    · simp [h1, ih, keepsVision]
    · by_cases h2 : owner = a
      · subst h2
        simp [h1, ih, keepsVision]
      · cases h3 : w.isAlliedSeat owner a
        · cases h4 : firesTo w a <;> simp [h1, h2, h3, h4, ih, keepsVision]
        · simp [h1, h2, h3, ih, keepsVision]

theorem gainVision_mem (w : SeatTable) (s : Nat) :
    ∀ (seats : List Nat) (st : List Nat × List VisionEvent),
      s ∈ (gainVision w seats st).1 ↔ s ∈ st.1 ∨ s ∈ seats := by
  intro seats
  induction seats with
  | nil => intro st; simp [gainVision]
  | cons a rest ih =>
    intro st
    unfold gainVision
    by_cases h1 : a ∈ st.1
    · simp only [h1, if_true, ih, List.mem_cons]
      constructor
      · rintro (h | h)
        · exact Or.inl h
        · exact Or.inr (Or.inr h)
      · rintro (h | h | h)
        · exact Or.inl h
        · exact Or.inl (h ▸ h1)
        · exact Or.inr h
    · cases h2 : firesTo w a
      · simp only [h1, if_false, Bool.false_eq_true, ih, List.mem_append,
          List.mem_singleton, List.mem_cons]
        tauto
      · simp only [h1, if_true, if_false, ih, List.mem_append, List.mem_singleton,
          List.mem_cons]
        tauto

theorem gainVision_of_subset (w : SeatTable) :
    ∀ (seats : List Nat) (st : List Nat × List VisionEvent),
      (∀ s ∈ seats, s ∈ st.1) → gainVision w seats st = st := by
  intro seats
  induction seats with
  | nil => intro st _; rfl
  | cons a rest ih =>
    intro st h
    unfold gainVision
    simp only [h a (by simp), if_true]
    exact ih st (fun s hs => h s (by simp [hs]))

theorem gainVision_count_le (w : SeatTable) (s : Nat) :
    ∀ (seats : List Nat) (st : List Nat × List VisionEvent),
      st.1.count s ≤ (gainVision w seats st).1.count s := by
  intro seats
  induction seats with
  | nil => intro st; exact Nat.le_refl _
  | cons a rest ih =>
    intro st
    unfold gainVision
    by_cases h1 : a ∈ st.1
    · simp only [h1, if_true]
      exact ih st
    · cases h2 : firesTo w a
      · simp only [h1, if_false, Bool.false_eq_true]
        refine Nat.le_trans ?_ (ih _)
        simp [List.count_append]
      · simp only [h1, if_true, if_false]
        refine Nat.le_trans ?_ (ih _)
        simp [List.count_append]

theorem gainVision_nodup (w : SeatTable) :
    ∀ (seats : List Nat) (st : List Nat × List VisionEvent),
      st.1.Nodup → (gainVision w seats st).1.Nodup := by
  intro seats
  induction seats with
  | nil => intro st h; exact h
  | cons a rest ih =>
    intro st h
    unfold gainVision
    have hnd : (st.1 ++ [a]).Nodup ∨ a ∈ st.1 := by
      by_cases h1 : a ∈ st.1
      · exact Or.inr h1
      · left
        rw [List.nodup_append]
        exact ⟨h, List.nodup_singleton a, by simpa using h1⟩
    by_cases h1 : a ∈ st.1
    · simp only [h1, if_true]
      exact ih st h
    · have hnd2 : (st.1 ++ [a]).Nodup := hnd.resolve_right h1
      cases h2 : firesTo w a
      · simp only [h1, if_false, Bool.false_eq_true]
        exact ih _ hnd2
      · simp only [h1, if_true, if_false]
        exact ih _ hnd2

theorem keepsVision_iff (w : SeatTable) (spell : Spell) (seats : List Nat)
    (hagree : alliancesAgree w spell.mSeat) (s : Nat) :
    keepsVision w spell.mSeat seats s = true ↔ s ∈ newObservers w spell seats := by
  unfold keepsVision newObservers
  simp only [Bool.or_eq_true, decide_eq_true_eq, List.mem_append, List.mem_singleton]
  by_cases hso : s = spell.mSeat
  · constructor
    · intro _
      exact Or.inr hso
    · intro _
      exact Or.inl (Or.inr hso.symm)
  · have ha := hagree s hso
    constructor
    · rintro ((h | h) | h)
      · exact Or.inl (Or.inl h)
      · exact Or.inr h.symm
      · exact Or.inl (Or.inr (ha.mp h))
    · rintro ((h | h) | h)
      · exact Or.inl (Or.inl h)
      · exact Or.inr (ha.mpr h)
      · exact Or.inl (Or.inr h.symm)

/-- The record after `notifySeatsWithVision`, member by member: the seats of the old
record that pass the test of the first loop, the seats given, the seats listed as allied
and the seat of the caster. -/
theorem notifySeatsWithVision_mem (w : SeatTable) (spell : Spell) (seats : List Nat)
    (s : Nat) :
    s ∈ (notifySeatsWithVision w spell seats).1.mSeatsWithVisionNotified ↔
      (s ∈ spell.mSeatsWithVisionNotified ∧ keepsVision w spell.mSeat seats s = true) ∨
        s ∈ seats ∨ s ∈ w.getAlliedSeats spell.mSeat ∨ s = spell.mSeat := by
  unfold notifySeatsWithVision
  simp only [gainVision_mem, loseVision_record, List.mem_filter, List.mem_append,
    List.mem_singleton]
  tauto

/-- C16: after `notifySeatsWithVision(seats)` the record, taken as a set, is the new
observer set, that is `seats` together with the seat of the caster and the seats allied
to it, whatever the record was before and whatever `seats` is, as long as `isAlliedSeat`
and `getAlliedSeats` describe the same alliances of the caster's seat with the other
seats (whether they count the seat as allied to itself is left open). -/
theorem notifySeatsWithVision_record_eq_observers (w : SeatTable) (spell : Spell)
    (seats : List Nat) (hagree : alliancesAgree w spell.mSeat) :
    ∀ s, s ∈ (notifySeatsWithVision w spell seats).1.mSeatsWithVisionNotified ↔
      s ∈ newObservers w spell seats := by
  intro s
  rw [notifySeatsWithVision_mem]
  have hk := keepsVision_iff w spell seats hagree s
  constructor
  · rintro (⟨_, h⟩ | h | h | h)
    · exact hk.mp h
    · simp [newObservers, h]
    · simp [newObservers, h]
    · simp [newObservers, h]
  · intro h
    simp only [newObservers, List.mem_append, List.mem_singleton] at h
    rcases h with (h | h) | h
    · exact Or.inr (Or.inl h)
    · exact Or.inr (Or.inr (Or.inl h))
    · exact Or.inr (Or.inr (Or.inr h))

/-- A human player and a computer player, for the examples. -/
def humanPlayer : Player := { Player.new 1 with mIsHuman := true }

/-- The seats of the examples: seat 1 is allied to seat 2 and to no other; seats 1, 2 and
3 have human players, seat 4 a computer player, and the other seats no player. -/
def exampleSeats : SeatTable :=
  { isAlliedSeat := fun a b => (a == 1 && b == 2) || (a == 2 && b == 1)
    getAlliedSeats := fun a => if a = 1 then [2] else if a = 2 then [1] else []
    getPlayer := fun a =>
      if a = 1 ∨ a = 2 ∨ a = 3 then some humanPlayer
      else if a = 4 then some (Player.new 0)
      else none }

/-- A spell cast by seat 1 of which the seats 1, 3 and 4 have been notified. -/
def exampleSpell : Spell :=
  { mSeat := 1, mNbTurns := 5, mSeatsWithVisionNotified := [1, 3, 4] }

theorem exampleSeats_agree : alliancesAgree exampleSeats 1 := by
  intro s _
  simp [exampleSeats]

/-- The seats of the examples with the alliances as the game keeps them: every seat is
allied to itself, the seats 1 and 2 are allied to each other, and `getAlliedSeats` lists
the other seats of the alliance only, never the seat itself. The players are those of
`exampleSeats`. -/
def reflexiveSeats : SeatTable :=
  { isAlliedSeat := fun a b => a == b || (a == 1 && b == 2) || (a == 2 && b == 1)
    getAlliedSeats := fun a => if a = 1 then [2] else if a = 2 then [1] else []
    getPlayer := fun a =>
      if a = 1 ∨ a = 2 ∨ a = 3 then some humanPlayer
      else if a = 4 then some (Player.new 0)
      else none }

theorem reflexiveSeats_agree : alliancesAgree reflexiveSeats 1 := by
  intro s hs
  simp only [reflexiveSeats]
  by_cases h2 : s = 2
  · subst h2
    decide
  · have h1 : ¬ (1 = s) := fun h => hs h.symm
    simp [h1, h2]

/-- C16 on the example, with a seat allied to itself (`isAlliedSeat` holds of seat 1 and
seat 1, and `getAlliedSeats` of seat 1 lists seat 2 only): seat 5 is given; afterwards
the record holds the seats 1, 2 and 5 and no other. -/
theorem notifySeatsWithVision_record_eq_observers_witness :
    reflexiveSeats.isAlliedSeat 1 1 = true ∧ 1 ∉ reflexiveSeats.getAlliedSeats 1 ∧
      (notifySeatsWithVision reflexiveSeats exampleSpell [5]).1.mSeatsWithVisionNotified
        = [1, 5, 2] ∧
      ∀ s, s ∈ (notifySeatsWithVision reflexiveSeats exampleSpell
          [5]).1.mSeatsWithVisionNotified ↔ s ∈ newObservers reflexiveSeats exampleSpell [5] :=
  ⟨by decide, by decide, by decide,
    notifySeatsWithVision_record_eq_observers reflexiveSeats exampleSpell [5]
      reflexiveSeats_agree⟩

/-! ## Counting the events of `notifySeatsWithVision` -/

theorem gainVision_count_remove (w : SeatTable) (s : Nat) :
    ∀ (seats : List Nat) (st : List Nat × List VisionEvent),
      (gainVision w seats st).2.count (VisionEvent.removeEntity s)
        = st.2.count (VisionEvent.removeEntity s) := by
  intro seats
  induction seats with
  | nil => intro st; rfl
  | cons a rest ih =>
    intro st
    unfold gainVision
    by_cases h1 : a ∈ st.1
    · simp only [h1, if_true]
      exact ih st
    · cases h2 : firesTo w a
      · simp only [h1, if_false, Bool.false_eq_true]
        exact ih _
      · simp only [h1, if_true, if_false]
        rw [ih]
        simp [List.count_append]

theorem gainVision_count_add (w : SeatTable) (s : Nat) :
    ∀ (seats : List Nat) (st : List Nat × List VisionEvent),
      (gainVision w seats st).2.count (VisionEvent.addEntity s)
        = st.2.count (VisionEvent.addEntity s)
          + (if s ∈ seats ∧ s ∉ st.1 ∧ firesTo w s = true then 1 else 0) := by
  intro seats
  induction seats with
  | nil => intro st; simp [gainVision]
  | cons a rest ih =>
    intro st
    unfold gainVision
    by_cases h1 : a ∈ st.1
    · simp only [h1, if_true]
      rw [ih]
      by_cases hsa : s = a
      · subst hsa
        simp [h1]
      · simp [hsa]
    · cases h2 : firesTo w a
      · simp only [h1, if_false, Bool.false_eq_true]
        rw [ih]
        by_cases hsa : s = a
        · subst hsa
          simp [h2]
        · simp [hsa]
      · simp only [h1, if_true, if_false]
        rw [ih]
        by_cases hsa : s = a
        · subst hsa
          simp [h1, h2, List.count_append]
        · have hne : VisionEvent.addEntity a ≠ VisionEvent.addEntity s := by
            intro h
            cases h
            exact hsa rfl
          simp [hsa, List.count_append, List.count_cons, hne]

theorem loseVision_count_add (w : SeatTable) (owner : Nat) (seats : List Nat) (s : Nat)
    (R : List Nat) :
    (loseVision w owner seats R).2.count (VisionEvent.addEntity s) = 0 := by
  rw [loseVision_events, List.count_eq_zero]
  intro h
  obtain ⟨x, _, hx⟩ := List.mem_map.mp h
  cases hx

theorem loseVision_count_remove (w : SeatTable) (owner : Nat) (seats : List Nat) (s : Nat)
    (R : List Nat) :
    (loseVision w owner seats R).2.count (VisionEvent.removeEntity s)
      = (R.filter (fun x => !keepsVision w owner seats x && firesTo w x)).count s := by
  rw [loseVision_events]
  apply List.count_map_of_injective
  intro a b h
  cases h
  rfl

/-- C17: `notifySeatsWithVision` fires the minimal difference. For a record `R` that holds
no seat twice and the new observer set `N` (the seats given, the caster's seat and the
seats allied to it, `isAlliedSeat` and `getAlliedSeats` describing the same alliances of
the caster's seat with the other seats), a seat gets exactly one remove event if it is in `R`, not in `N` and has a human player,
and none otherwise; it gets exactly one add event if it is in `N`, not in `R` and has a
human player, and none otherwise. The list of seats given may repeat seats. -/
theorem notifySeatsWithVision_minimal_diff (w : SeatTable) (spell : Spell)
    (seats : List Nat) (hagree : alliancesAgree w spell.mSeat)
    (hnd : spell.mSeatsWithVisionNotified.Nodup) (s : Nat) :
    (notifySeatsWithVision w spell seats).2.count (VisionEvent.removeEntity s)
        = (if s ∈ spell.mSeatsWithVisionNotified ∧ s ∉ newObservers w spell seats ∧
            firesTo w s = true then 1 else 0) ∧
      (notifySeatsWithVision w spell seats).2.count (VisionEvent.addEntity s)
        = (if s ∈ newObservers w spell seats ∧ s ∉ spell.mSeatsWithVisionNotified ∧
            firesTo w s = true then 1 else 0) := by
  have hk := keepsVision_iff w spell seats hagree s
  have hN : s ∈ newObservers w spell seats ↔
      s ∈ seats ∨ s ∈ w.getAlliedSeats spell.mSeat ∨ s = spell.mSeat := by
    simp [newObservers, or_assoc]
  constructor
  · unfold notifySeatsWithVision
    simp only [gainVision_count_remove, loseVision_count_remove]
    rw [List.count_eq_of_nodup (hnd.filter _)]
    simp only [List.mem_filter, Bool.and_eq_true, Bool.not_eq_true', ← hk]
    by_cases h1 : s ∈ spell.mSeatsWithVisionNotified <;>
      cases h2 : keepsVision w spell.mSeat seats s <;>
      cases h3 : firesTo w s <;> simp [h1, h2, h3]
  · unfold notifySeatsWithVision
    simp only [gainVision_count_add, loseVision_count_add, gainVision_mem,
      loseVision_record, List.mem_filter, List.mem_append, List.mem_singleton, zero_add]
    have hk2 : keepsVision w spell.mSeat seats s = true ↔
        s ∈ seats ∨ s ∈ w.getAlliedSeats spell.mSeat ∨ s = spell.mSeat := hk.trans hN
    by_cases h1 : s ∈ spell.mSeatsWithVisionNotified <;>
      by_cases h2 : s ∈ seats <;>
      by_cases h3 : (s ∈ w.getAlliedSeats spell.mSeat ∨ s = spell.mSeat) <;>
      cases h5 : firesTo w s <;>
      simp only [h1, h2, h3, hk2, hN, or_true, or_false, true_or, and_true, true_and,
        and_false, false_and, not_true_eq_false, not_false_eq_true, if_true, if_false,
        Bool.false_eq_true, false_or, add_zero, zero_add]

/-- C17 on the example, with a seat allied to itself: the record is `[1, 3, 4]`, the
seats given are `[5, 5, 3]` (seat 5 twice), the caster is seat 1 with ally 2. Seat 4, a
computer, leaves without event; seat 2 gets one add event; seat 5 has no player and gets
none; seat 3 stays. -/
theorem notifySeatsWithVision_minimal_diff_witness :
    reflexiveSeats.isAlliedSeat 1 1 = true ∧
      (notifySeatsWithVision reflexiveSeats exampleSpell [5, 5, 3]).2
        = [VisionEvent.addEntity 2] ∧
      (notifySeatsWithVision reflexiveSeats exampleSpell [5, 5, 3]).2.count
        (VisionEvent.addEntity 2) = 1 ∧
      (notifySeatsWithVision reflexiveSeats exampleSpell [5]).2.count
        (VisionEvent.removeEntity 3) = 1 := by
  refine ⟨by decide, by decide, ?_, ?_⟩
  · rw [(notifySeatsWithVision_minimal_diff reflexiveSeats exampleSpell [5, 5, 3]
      reflexiveSeats_agree (by decide) 2).2]
    decide
  · rw [(notifySeatsWithVision_minimal_diff reflexiveSeats exampleSpell [5]
      reflexiveSeats_agree (by decide) 3).1]
    decide

/-- C18: `notifySeatsWithVision` never fires a remove event for the caster's seat or for
a seat for which `isAlliedSeat` of the caster's seat holds, and never evicts such a seat:
it is in the record afterwards as often as before, at least, whatever the record was and
whatever the seats given (none, for one). -/
theorem notifySeatsWithVision_keeps_owner_and_allies (w : SeatTable) (spell : Spell)
    (seats : List Nat) (s : Nat)
    (hs : s = spell.mSeat ∨ w.isAlliedSeat spell.mSeat s = true) :
    VisionEvent.removeEntity s ∉ (notifySeatsWithVision w spell seats).2 ∧
      spell.mSeatsWithVisionNotified.count s
        ≤ (notifySeatsWithVision w spell seats).1.mSeatsWithVisionNotified.count s ∧
      (s ∈ spell.mSeatsWithVisionNotified →
        s ∈ (notifySeatsWithVision w spell seats).1.mSeatsWithVisionNotified) := by
  have hkeep : keepsVision w spell.mSeat seats s = true := by
    unfold keepsVision
    rcases hs with h | h
    · simp [h]
    · simp [h]
  have hcount : spell.mSeatsWithVisionNotified.count s
      ≤ (notifySeatsWithVision w spell seats).1.mSeatsWithVisionNotified.count s := by
    unfold notifySeatsWithVision
    refine Nat.le_trans ?_ (gainVision_count_le w s _ _)
    refine Nat.le_trans ?_ (gainVision_count_le w s _ _)
    rw [loseVision_record, List.count_filter hkeep]
  refine ⟨?_, hcount, ?_⟩
  · rw [← List.count_eq_zero]
    unfold notifySeatsWithVision
    simp only [gainVision_count_remove, loseVision_count_remove]
    rw [List.count_eq_zero]
    intro hmem
    have := (List.mem_filter.mp hmem).2
    simp [hkeep] at this
  · intro hmem
    have hpos : 0 < spell.mSeatsWithVisionNotified.count s := List.count_pos_iff.mpr hmem
    exact List.count_pos_iff.mp (Nat.lt_of_lt_of_le hpos hcount)

/-- C18 on the example: no seat is given; the caster's seat 1 stays in the record and its
ally, seat 2, gets no remove event. -/
theorem notifySeatsWithVision_keeps_owner_and_allies_witness :
    1 ∈ (notifySeatsWithVision exampleSeats exampleSpell []).1.mSeatsWithVisionNotified ∧
      VisionEvent.removeEntity 2 ∉ (notifySeatsWithVision exampleSeats exampleSpell []).2 :=
  ⟨(notifySeatsWithVision_keeps_owner_and_allies exampleSeats exampleSpell [] 1
      (Or.inl rfl)).2.2 (by decide),
    (notifySeatsWithVision_keeps_owner_and_allies exampleSeats exampleSpell [] 2
      (Or.inr (by decide))).1⟩

/-- C19: visibility diffing is idempotent. When `isAlliedSeat` and `getAlliedSeats`
describe the same alliances of the caster's seat with the other seats, a second
`notifySeatsWithVision` with the same seats fires no event at all and leaves the spell,
its record included, as the first call left it, whatever the record was before the first
call and whatever the seats given. -/
theorem notifySeatsWithVision_idempotent (w : SeatTable) (spell : Spell)
    (seats : List Nat) (hagree : alliancesAgree w spell.mSeat) :
    notifySeatsWithVision w (notifySeatsWithVision w spell seats).1 seats
      = ((notifySeatsWithVision w spell seats).1, []) := by
  have hseat : (notifySeatsWithVision w spell seats).1.mSeat = spell.mSeat := rfl
  have hmem := notifySeatsWithVision_mem w spell seats
  generalize (notifySeatsWithVision w spell seats).1 = spell1 at hseat hmem
  have hall : ∀ x ∈ spell1.mSeatsWithVisionNotified,
      keepsVision w spell.mSeat seats x = true := by
    intro x hx
    rcases (hmem x).mp hx with ⟨_, h⟩ | h | h | h
    · exact h
    · simp [keepsVision, h]
    · by_cases hxo : x = spell.mSeat
      · simp [keepsVision, hxo]
      · simp [keepsVision, (hagree x hxo).mpr h]
    · simp [keepsVision, h]
  have hlost : loseVision w spell.mSeat seats spell1.mSeatsWithVisionNotified
      = (spell1.mSeatsWithVisionNotified, []) := by
    apply Prod.ext
    · rw [loseVision_record]
      exact List.filter_eq_self.mpr hall
    · rw [loseVision_events]
      have hnil : spell1.mSeatsWithVisionNotified.filter
          (fun x => !keepsVision w spell.mSeat seats x && firesTo w x) = [] := by
        rw [List.filter_eq_nil_iff]
        intro x hx
        simp [hall x hx]
      rw [hnil]
      rfl
  unfold notifySeatsWithVision
  simp only [hseat, hlost]
  have h1 : gainVision w seats (spell1.mSeatsWithVisionNotified, [])
      = (spell1.mSeatsWithVisionNotified, []) :=
    gainVision_of_subset w seats _ (fun x hx => (hmem x).mpr (Or.inr (Or.inl hx)))
  rw [h1]
  have h2 : gainVision w (w.getAlliedSeats spell.mSeat ++ [spell.mSeat])
      (spell1.mSeatsWithVisionNotified, []) = (spell1.mSeatsWithVisionNotified, []) := by
    apply gainVision_of_subset
    intro x hx
    rcases List.mem_append.mp hx with h | h
    · exact (hmem x).mpr (Or.inr (Or.inr (Or.inl h)))
    · exact (hmem x).mpr (Or.inr (Or.inr (Or.inr (List.mem_singleton.mp h))))
  rw [h2]
  cases spell1 with
  | mk seat1 turns1 record1 =>
    simp only at hseat
    subst hseat
    rfl

/-- C19 on the example, with a seat allied to itself: the first call with seat 5 fires
an add event for seat 2 and a remove event for seat 3; the second call fires nothing and
changes nothing. -/
theorem notifySeatsWithVision_idempotent_witness :
    reflexiveSeats.isAlliedSeat 1 1 = true ∧
      (notifySeatsWithVision reflexiveSeats exampleSpell [5]).2
        = [VisionEvent.removeEntity 3, VisionEvent.addEntity 2] ∧
      notifySeatsWithVision reflexiveSeats
          (notifySeatsWithVision reflexiveSeats exampleSpell [5]).1 [5]
        = ((notifySeatsWithVision reflexiveSeats exampleSpell [5]).1, []) :=
  ⟨by decide, by decide,
    notifySeatsWithVision_idempotent reflexiveSeats exampleSpell [5]
      reflexiveSeats_agree⟩

/-! ## Events go to human players only -/

/-- The same seats with a human player on every seat. -/
def allHuman (w : SeatTable) : SeatTable :=
  { w with getPlayer := fun _ => some humanPlayer }

theorem firesTo_allHuman (w : SeatTable) (s : Nat) : firesTo (allHuman w) s = true := rfl

theorem firesTo_iff (w : SeatTable) (s : Nat) :
    firesTo w s = true ↔ ∃ player, w.getPlayer s = some player ∧ player.mIsHuman = true := by
  unfold firesTo
  cases h : w.getPlayer s with
  | none => simp
  | some player => cases hh : player.mIsHuman <;> simp [hh]

theorem loseVision_allHuman (w : SeatTable) (owner : Nat) (seats R : List Nat) :
    loseVision w owner seats R
      = ((loseVision (allHuman w) owner seats R).1,
         (loseVision (allHuman w) owner seats R).2.filter (fun e => firesTo w e.seat)) := by
  apply Prod.ext
  · simp only [loseVision_record]
    rfl
  · simp only [loseVision_events, List.filter_map, List.filter_filter]
    congr 1
    apply List.filter_congr
    intro x _
    have hk : keepsVision (allHuman w) owner seats x = keepsVision w owner seats x := rfl
    simp [hk, firesTo_allHuman, VisionEvent.seat, Bool.and_comm]

theorem gainVision_allHuman (w : SeatTable) :
    ∀ (seats rec : List Nat) (ev : List VisionEvent),
      gainVision w seats (rec, ev.filter (fun e => firesTo w e.seat))
        = ((gainVision (allHuman w) seats (rec, ev)).1,
           (gainVision (allHuman w) seats (rec, ev)).2.filter
             (fun e => firesTo w e.seat)) := by
  intro seats
  induction seats with
  | nil => intro rec ev; rfl
  | cons a rest ih =>
    intro rec ev
    rw [gainVision, gainVision]
    by_cases h1 : a ∈ rec
    · simp only [h1, if_true]
      exact ih rec ev
    · simp only [h1, if_false, firesTo_allHuman, if_true]
      rw [← ih]
      cases h2 : firesTo w a
      · simp [List.filter_append, VisionEvent.seat, h2]
      · simp [List.filter_append, VisionEvent.seat, h2]

/-- C20: `notifySeatsWithVision` fires its events to seats with a human player only, and
the players have no other influence. Every event fired goes to a seat that has a player
whose human flag is set; the record afterwards is the one that would result if every seat
had a human player; and the events fired are those that would be fired in that case,
less the ones to seats without a human player. -/
theorem notifySeatsWithVision_events_to_humans_only (w : SeatTable) (spell : Spell)
    (seats : List Nat) :
    (∀ e ∈ (notifySeatsWithVision w spell seats).2,
        ∃ player, w.getPlayer e.seat = some player ∧ player.mIsHuman = true) ∧
      (notifySeatsWithVision w spell seats).1
        = (notifySeatsWithVision (allHuman w) spell seats).1 ∧
      (notifySeatsWithVision w spell seats).2
        = (notifySeatsWithVision (allHuman w) spell seats).2.filter
            (fun e => firesTo w e.seat) := by
  have hpair : notifySeatsWithVision w spell seats
      = ((notifySeatsWithVision (allHuman w) spell seats).1,
         (notifySeatsWithVision (allHuman w) spell seats).2.filter
           (fun e => firesTo w e.seat)) := by
    have hallied : (allHuman w).getAlliedSeats spell.mSeat = w.getAlliedSeats spell.mSeat := rfl
    unfold notifySeatsWithVision
    simp only [hallied]
    rw [loseVision_allHuman, gainVision_allHuman, gainVision_allHuman]
  have h1 := congrArg Prod.fst hpair
  have h2 := congrArg Prod.snd hpair
  simp only at h1 h2
  refine ⟨?_, h1, h2⟩
  intro e he
  rw [h2] at he
  exact (firesTo_iff w e.seat).mp (by simpa using (List.mem_filter.mp he).2)

/-- C20 on the example: with seat 5 given, seat 4 (a computer) is evicted and seat 5 (no
player) inserted without event; were every seat human, both would get their event. -/
theorem notifySeatsWithVision_events_to_humans_only_witness :
    (notifySeatsWithVision exampleSeats exampleSpell [5]).2
        = [VisionEvent.removeEntity 3, VisionEvent.addEntity 2] ∧
      (notifySeatsWithVision (allHuman exampleSeats) exampleSpell [5]).2
        = [VisionEvent.removeEntity 3, VisionEvent.removeEntity 4,
           VisionEvent.addEntity 5, VisionEvent.addEntity 2] ∧
      (notifySeatsWithVision exampleSeats exampleSpell [5]).1.mSeatsWithVisionNotified
        = [1, 5, 2] ∧
      (notifySeatsWithVision exampleSeats exampleSpell [5]).1
        = (notifySeatsWithVision (allHuman exampleSeats) exampleSpell [5]).1 :=
  ⟨by decide, by decide, by decide,
    (notifySeatsWithVision_events_to_humans_only exampleSeats exampleSpell [5]).2.1⟩

/-! ## Carriers: the ledger together with the research entities on the map -/

/-- Whether a renderable is a `ResearchEntity` of the seat that carries `t`. -/
def isCarrierOf (seat : Option Nat) (t : ResearchType) (e : RenderedMovableEntity) : Bool :=
  decide (e.objectType = GameEntityType.researchEntity) && decide (e.seat = seat) &&
    decide (e.researchType = t)

/-- The number of live research entities of the player's seat that carry `t`. -/
def liveCarriers (g : Game) (t : ResearchType) : Nat :=
  g.gameMap.renderedMovableEntities.countP (isCarrierOf g.player.mSeat t)

/-- Modelled from the spec: the release of a `ResearchEntity` by the library that
completed a research (`rooms/RoomLibrary.cpp`) is missing from the sources. A research
entity of the player's seat carrying `t` is added to the map. -/
def spawnCarrier (g : Game) (t : ResearchType) : Game :=
  { g with gameMap := { g.gameMap with
      renderedMovableEntities := g.gameMap.renderedMovableEntities ++
        [{ objectType := GameEntityType.researchEntity, seat := g.player.mSeat,
           researchType := t }] } }

/-- Modelled from the spec: the removal of a `ResearchEntity` that reached its destination
is missing from the sources. The first research entity of the player's seat carrying `t`
is taken off the map. -/
def removeCarrier (g : Game) (t : ResearchType) : Game :=
  { g with gameMap := { g.gameMap with
      renderedMovableEntities :=
        g.gameMap.renderedMovableEntities.eraseP (isCarrierOf g.player.mSeat t) } }

/-- The events of a run of the ledger with its carriers. -/
inductive CarrierEvent where
  | setResearchTree (researches : List ResearchType)
  | addResearchPoints (points : Int)
  | setResearchesDone (researches : List ResearchType)
  | carrierArrives (type : ResearchType)
  deriving DecidableEq, Repr

/-- One step of such a run: a carrier is spawned exactly when `addResearchPoints` returns a
research, and a live carrier that arrives is removed and its research handed to
`addResearch`. The arrival of a carrier that is not on the map is no step at all. -/
def carrierStep (g : Game) : CarrierEvent → Game
  | CarrierEvent.setResearchTree researches => setResearchTree g researches
  | CarrierEvent.addResearchPoints points =>
    match addResearchPoints g points with
    | (none, g1) => g1
    | (some research, g1) => spawnCarrier g1 research.getType
  | CarrierEvent.setResearchesDone researches => setResearchesDone g researches
  | CarrierEvent.carrierArrives type =>
    if hasLiveCarrier g type then (addResearch (removeCarrier g type) type).2 else g

/-- The state after a run of events. -/
def carrierRun (g : Game) (events : List CarrierEvent) : Game :=
  events.foldl carrierStep g

/-- The carrier invariant: the current research, if any, has no live carrier of the seat,
and no research has more than one live carrier of the seat. -/
def carrierInv (g : Game) : Prop :=
  (∀ r, g.player.mCurrentResearch = some r → hasLiveCarrier g r.getType = false) ∧
    ∀ t, liveCarriers g t ≤ 1

theorem hasLiveCarrier_eq_any (g : Game) (t : ResearchType) :
    hasLiveCarrier g t = g.gameMap.renderedMovableEntities.any (isCarrierOf g.player.mSeat t) :=
  rfl

theorem hasLiveCarrier_false_iff (g : Game) (t : ResearchType) :
    hasLiveCarrier g t = false ↔ liveCarriers g t = 0 := by
  rw [hasLiveCarrier_eq_any, liveCarriers, List.countP_eq_zero, List.any_eq_false]

theorem hasLiveCarrier_congr {g g2 : Game} (hm : g2.gameMap = g.gameMap)
    (hseat : g2.player.mSeat = g.player.mSeat) (t : ResearchType) :
    hasLiveCarrier g2 t = hasLiveCarrier g t := by
  rw [hasLiveCarrier_eq_any, hasLiveCarrier_eq_any, hm, hseat]

theorem liveCarriers_congr {g g2 : Game} (hm : g2.gameMap = g.gameMap)
    (hseat : g2.player.mSeat = g.player.mSeat) (t : ResearchType) :
    liveCarriers g2 t = liveCarriers g t := by
  rw [liveCarriers, liveCarriers, hm, hseat]

/-- A state with the same map and seat, whose current research is either the old one or
one that has no live carrier, satisfies the carrier invariant if the old state does. -/
theorem carrierInv_of_same_map {g g2 : Game} (hinv : carrierInv g)
    (hm : g2.gameMap = g.gameMap) (hseat : g2.player.mSeat = g.player.mSeat)
    (hcur : g2.player.mCurrentResearch = g.player.mCurrentResearch ∨
      ∀ r, g2.player.mCurrentResearch = some r → hasLiveCarrier g r.getType = false) :
    carrierInv g2 := by
  constructor
  · intro r hr
    rw [hasLiveCarrier_congr hm hseat]
    rcases hcur with h | h
    · exact hinv.1 r (h ▸ hr)
    · exact h r hr
  · intro t
    rw [liveCarriers_congr hm hseat]
    exact hinv.2 t

/-- The research selected by `setNextResearch` has no live carrier of the seat and is not
the research named as just completed. -/
theorem nextResearch_carrierFree (g : Game) (jc : ResearchType) (r : Research)
    (h : nextResearch g jc = some r) :
    hasLiveCarrier g r.getType = false ∧ r.getType ≠ jc := by
  rw [nextResearch_eq] at h
  obtain ⟨t, ht, hft⟩ := Option.bind_eq_some.mp h
  have hp := List.find?_some ht
  have hty : r.getType = t := findResearch_getType hft
  simp only [ne_eq, Bool.and_eq_true, decide_eq_true_eq, Bool.not_eq_true'] at hp
  rw [hty]
  exact ⟨hp.1.2, hp.1.1⟩

theorem setResearchesDone_gameMap (g : Game) (L : List ResearchType) :
    (setResearchesDone g L).gameMap = g.gameMap ∧
      (setResearchesDone g L).player.mSeat = g.player.mSeat := by
  cases hs : g.gameMap.isServerGameMap <;> cases hh : g.player.mIsHuman <;>
    simp [setResearchesDone, hs, hh]

theorem setResearchTree_same_map (g : Game) (L : List ResearchType) :
    (setResearchTree g L).gameMap = g.gameMap ∧
      (setResearchTree g L).player.mSeat = g.player.mSeat ∧
      ((setResearchTree g L).player.mCurrentResearch = g.player.mCurrentResearch ∨
        ∀ r, (setResearchTree g L).player.mCurrentResearch = some r →
          hasLiveCarrier g r.getType = false) := by
  have key : ∀ g1 : Game, g1.gameMap = g.gameMap → g1.player.mSeat = g.player.mSeat →
      (setNextResearch g1 ResearchType.nullResearchType).gameMap = g.gameMap ∧
      (setNextResearch g1 ResearchType.nullResearchType).player.mSeat = g.player.mSeat ∧
      ((setNextResearch g1 ResearchType.nullResearchType).player.mCurrentResearch
          = g.player.mCurrentResearch ∨
        ∀ r, (setNextResearch g1 ResearchType.nullResearchType).player.mCurrentResearch
          = some r → hasLiveCarrier g r.getType = false) := by
    intro g1 hm hseat
    rw [setNextResearch_eq]
    refine ⟨hm, hseat, Or.inr ?_⟩
    intro r hr
    rw [← hasLiveCarrier_congr hm hseat]
    exact (nextResearch_carrierFree _ _ r hr).1
  unfold setResearchTree
  split_ifs with hs
  · split
    · exact ⟨rfl, rfl, Or.inl rfl⟩
    · exact ⟨rfl, rfl, Or.inl rfl⟩
    · dsimp only
      split_ifs
      · exact key _ rfl rfl
      · exact key _ rfl rfl
  · exact ⟨rfl, rfl, Or.inl rfl⟩

theorem addResearchPoints_of_none (g : Game) (n : Int)
    (hcur : g.player.mCurrentResearch = none) : addResearchPoints g n = (none, g) := by
  unfold addResearchPoints
  simp only [hcur]

theorem addResearchPoints_of_lt (g : Game) (n : Int) (cur : Research)
    (hcur : g.player.mCurrentResearch = some cur)
    (hlt : wrapInt32 (g.player.mResearchPoints + n) < cur.getNeededResearchPoints) :
    addResearchPoints g n
      = (none, { g with player := { g.player with
          mResearchPoints := wrapInt32 (g.player.mResearchPoints + n) } }) := by
  unfold addResearchPoints
  simp only [hcur, hlt, if_true]

theorem addResearchPoints_of_ge (g : Game) (n : Int) (cur : Research)
    (hcur : g.player.mCurrentResearch = some cur)
    (hge : ¬ wrapInt32 (g.player.mResearchPoints + n) < cur.getNeededResearchPoints) :
    addResearchPoints g n
      = (some cur, setNextResearch { g with player := { g.player with
          mResearchPoints := wrapInt32 (wrapInt32 (g.player.mResearchPoints + n)
            - cur.getNeededResearchPoints) } } cur.getType) := by
  unfold addResearchPoints
  simp only [hcur, hge, if_false]

theorem addResearchPoints_same_map (g : Game) (n : Int) :
    (addResearchPoints g n).2.gameMap = g.gameMap ∧
      (addResearchPoints g n).2.player.mSeat = g.player.mSeat ∧
      (((addResearchPoints g n).1 = none ∧
          (addResearchPoints g n).2.player.mCurrentResearch = g.player.mCurrentResearch) ∨
        ∃ r0, (addResearchPoints g n).1 = some r0 ∧ g.player.mCurrentResearch = some r0 ∧
          ∀ r, (addResearchPoints g n).2.player.mCurrentResearch = some r →
            hasLiveCarrier g r.getType = false ∧ r.getType ≠ r0.getType) := by
  cases hcur : g.player.mCurrentResearch with
  | none =>
    rw [addResearchPoints_of_none g n hcur]
    exact ⟨rfl, rfl, Or.inl ⟨rfl, hcur⟩⟩
  | some cur =>
    by_cases hlt : wrapInt32 (g.player.mResearchPoints + n) < cur.getNeededResearchPoints
    · rw [addResearchPoints_of_lt g n cur hcur hlt]
      exact ⟨rfl, rfl, Or.inl ⟨rfl, hcur⟩⟩
    · rw [addResearchPoints_of_ge g n cur hcur hlt, setNextResearch_eq]
      refine ⟨rfl, rfl, Or.inr ⟨cur, rfl, rfl, ?_⟩⟩
      intro r hr
      exact nextResearch_carrierFree { g with player := { g.player with
          mResearchPoints := wrapInt32 (wrapInt32 (g.player.mResearchPoints + n)
            - cur.getNeededResearchPoints) } } cur.getType r hr

theorem addResearch_same_map (g : Game) (t : ResearchType) :
    (addResearch g t).2.gameMap = g.gameMap ∧
      (addResearch g t).2.player.mSeat = g.player.mSeat ∧
      (addResearch g t).2.player.mCurrentResearch = g.player.mCurrentResearch := by
  unfold addResearch
  split_ifs
  · exact ⟨rfl, rfl, rfl⟩
  · exact ⟨(setResearchesDone_gameMap g _).1, (setResearchesDone_gameMap g _).2,
      setResearchesDone_current g _⟩

/-! ## The current research stays pending -/

/-- Erasing the researches of a list from the pending list leaves every pending research
that is not in the list. -/
theorem erasePending_mem_of_not_mem (L : List ResearchType) :
    ∀ (pending : List ResearchType) (c : ResearchType),
      c ∉ L → c ∈ pending → c ∈ erasePending pending L := by
  induction L with
  | nil => intro pending c _ h; exact h
  | cons a rest ih =>
    intro pending c hc h
    rw [erasePending_cons]
    have hca : c ≠ a := fun e => hc (by simp [e])
    have hcr : c ∉ rest := fun e => hc (by simp [e])
    exact ih _ c hcr ((List.mem_erase_of_ne hca).mpr h)

/-- `setResearchesDone` keeps the current research pending when its list does not hold
the node of the current research. -/
theorem currentInPending_setResearchesDone (g : Game) (L : List ResearchType)
    (hinv : currentInPending g)
    (hL : ∀ r, g.player.mCurrentResearch = some r → r.getType ∉ L) :
    currentInPending (setResearchesDone g L) := by
  intro r hr
  rw [setResearchesDone_current] at hr
  rw [setResearchesDone_pending]
  exact erasePending_mem_of_not_mem L _ _ (hL r hr) (hinv r hr)

/-- A call does not erase the node of the current research from the pending list: the
list of a `setResearchesDone` call does not hold that node, and neither does the list
that an `addResearch` call hands to `setResearchesDone` when its research is not done yet
(the done researches followed by the new one). `setNextResearch`, which is private and
called by `addResearchPoints` and by the server branch of `setResearchTree` only, is made
on the server game map. Nothing is asked of `setResearchTree` and `addResearchPoints`. -/
def keepsCurrentOp (g : Game) : LedgerOp → Prop
  | LedgerOp.setResearchesDone researches =>
    ∀ r, g.player.mCurrentResearch = some r → r.getType ∉ researches
  | LedgerOp.addResearch type =>
    type ∉ g.player.mResearchDone →
      ∀ r, g.player.mCurrentResearch = some r →
        r.getType ∉ g.player.mResearchDone ++ [type]
  | LedgerOp.setNextResearch _ => g.gameMap.isServerGameMap = true
  | LedgerOp.setResearchTree _ => True
  | LedgerOp.addResearchPoints _ => True

/-- Each call of the run does not erase the node of the research that is current when
the call is made. -/
def keepsCurrentRun : Game → List LedgerOp → Prop
  | _, [] => True
  | g, op :: rest => keepsCurrentOp g op ∧ keepsCurrentRun (applyOp g op) rest

/-- One ledger operation keeps the current research pending, and keeps a client without
current research. -/
theorem currentInPending_applyOp (g : Game) (op : LedgerOp)
    (hinv : currentInPending g)
    (hclient : g.gameMap.isServerGameMap = false → g.player.mCurrentResearch = none)
    (hop : keepsCurrentOp g op) :
    currentInPending (applyOp g op) ∧
      ((applyOp g op).gameMap.isServerGameMap = false →
        (applyOp g op).player.mCurrentResearch = none) := by
  cases op with
  | setResearchTree L =>
    simp only [applyOp]
    cases hs : g.gameMap.isServerGameMap with
    | true =>
      constructor
      · unfold setResearchTree
        simp only [hs, if_true]
        split
        · exact hinv
        · exact hinv
        · exact currentInPending_setNextResearch _ _
      · intro h
        rw [(setResearchTree_same_map g L).1, hs] at h
        cases h
    | false =>
      have hnone := hclient hs
      have heq : setResearchTree g L = { g with player := { g.player with
          mResearchPending := L
          mNeedRefreshGuiResearchPending := true } } := by
        unfold setResearchTree
        simp [hs]
      rw [heq]
      constructor
      · intro r hr
        simp only [hnone] at hr
        cases hr
      · intro _
        exact hnone
  | setNextResearch t =>
    simp only [applyOp]
    have hs : g.gameMap.isServerGameMap = true := hop
    constructor
    · exact currentInPending_setNextResearch g t
    · intro h
      rw [setNextResearch_eq] at h
      simp only [hs] at h
      cases h
  | addResearchPoints n =>
    simp only [applyOp]
    constructor
    · cases hcur : g.player.mCurrentResearch with
      | none =>
        rw [addResearchPoints_of_none g n hcur]
        exact hinv
      | some cur =>
        by_cases hlt : wrapInt32 (g.player.mResearchPoints + n) < cur.getNeededResearchPoints
        · rw [addResearchPoints_of_lt g n cur hcur hlt]
          intro r hr
          exact hinv r hr
        · rw [addResearchPoints_of_ge g n cur hcur hlt]
          exact currentInPending_setNextResearch _ _
    · intro h
      rw [(addResearchPoints_same_map g n).1] at h
      rw [addResearchPoints_of_none g n (hclient h)]
      exact hclient h
  | addResearch t =>
    simp only [applyOp]
    constructor
    · by_cases hmem : t ∈ g.player.mResearchDone
      · simp only [addResearch, hmem, if_true]
        exact hinv
      · simp only [addResearch, hmem, if_false]
        exact currentInPending_setResearchesDone g _ hinv (hop hmem)
    · intro h
      rw [(addResearch_same_map g t).1] at h
      rw [(addResearch_same_map g t).2.2]
      exact hclient h
  | setResearchesDone L =>
    simp only [applyOp]
    constructor
    · exact currentInPending_setResearchesDone g L hinv hop
    · intro h
      rw [(setResearchesDone_gameMap g L).1] at h
      rw [setResearchesDone_current]
      exact hclient h

theorem currentInPending_runOps (ops : List LedgerOp) :
    ∀ g : Game, currentInPending g →
      (g.gameMap.isServerGameMap = false → g.player.mCurrentResearch = none) →
      keepsCurrentRun g ops → currentInPending (runOps g ops) := by
  induction ops with
  | nil =>
    intro g hinv _ _
    exact hinv
  | cons op rest ih =>
    intro g hinv hclient hrun
    have hstep := currentInPending_applyOp g op hinv hclient hrun.1
    have := ih (applyOp g op) hstep.1 hstep.2 hrun.2
    simpa [runOps] using this

/-- C9, amended: starting from a ledger whose current research is none or the definition
of a pending research, and is none on a client game map (a fresh player, for one), the
current research is again none or the definition of a pending research after every run of
ledger operations in which no list handed to `setResearchesDone`, by a call of its own or
by `addResearch` (the done researches followed by the new one), holds the node of the
research that is current at the time of the call. `addResearch` of a node other than the
current one, as the arrival of a carrier is, is such a call when done and pending are
disjoint. When the list of a `setResearchesDone` call does hold the current node and no
research is pending twice, the research stays current and its node leaves the pending
list. -/
theorem currentInPending_of_run (g : Game) :
    (currentInPending g →
      (g.gameMap.isServerGameMap = false → g.player.mCurrentResearch = none) →
      ∀ ops, keepsCurrentRun g ops → currentInPending (runOps g ops)) ∧
    (currentInPending g → doneDisjointPending g → ∀ t,
      (∀ r, g.player.mCurrentResearch = some r → r.getType ≠ t) →
      keepsCurrentOp g (LedgerOp.addResearch t) ∧ currentInPending (addResearch g t).2) ∧
    (g.player.mResearchPending.Nodup → ∀ L r, g.player.mCurrentResearch = some r →
      r.getType ∈ L → ¬ currentInPending (setResearchesDone g L)) := by
  refine ⟨fun hinv hclient ops hrun => currentInPending_runOps ops g hinv hclient hrun,
    ?_, ?_⟩
  · intro hinv hdisj t ht
    have hkeep : keepsCurrentOp g (LedgerOp.addResearch t) := by
      intro _ r hr hmem
      rcases List.mem_append.mp hmem with h | h
      · exact hdisj _ h (hinv r hr)
      · exact ht r hr (List.mem_singleton.mp h)
    refine ⟨hkeep, ?_⟩
    by_cases hmem : t ∈ g.player.mResearchDone
    · simp only [addResearch, hmem, if_true]
      exact hinv
    · simp only [addResearch, hmem, if_false]
      exact currentInPending_setResearchesDone g _ hinv (hkeep hmem)
  · intro hnd L r hr hmem hinv
    have h1 := hinv r (by rw [setResearchesDone_current]; exact hr)
    rw [setResearchesDone_pending] at h1
    exact erasePending_not_mem L _ hnd _ hmem h1

/-- C9, amended, on a run from the fresh player: the tree is accepted,
`addResearchPoints(150)` completes the library and makes the training hall current, the
library is delivered, and a done list without the training hall is given; the training
hall is current and pending at the end. -/
theorem currentInPending_of_run_witness :
    (runOps exampleGame
        [LedgerOp.setResearchTree [ResearchType.roomLibrary, ResearchType.roomTrainingHall],
         LedgerOp.addResearchPoints 150,
         LedgerOp.addResearch ResearchType.roomLibrary,
         LedgerOp.setResearchesDone [ResearchType.roomLibrary, ResearchType.roomTreasury]]
      ).player.mCurrentResearch = some trainingHall ∧
    currentInPending (runOps exampleGame
        [LedgerOp.setResearchTree [ResearchType.roomLibrary, ResearchType.roomTrainingHall],
         LedgerOp.addResearchPoints 150,
         LedgerOp.addResearch ResearchType.roomLibrary,
         LedgerOp.setResearchesDone [ResearchType.roomLibrary, ResearchType.roomTreasury]]) :=
  ⟨by decide,
    (currentInPending_of_run exampleGame).1
      (fun r hr => by simp [exampleGame, freshGame, Player.new] at hr)
      (fun h => by simp [exampleGame, freshGame] at h)
      _
      ⟨trivial, trivial,
        fun _ r hr hmem => by
          have hc : (applyOp (applyOp exampleGame (LedgerOp.setResearchTree
              [ResearchType.roomLibrary, ResearchType.roomTrainingHall]))
              (LedgerOp.addResearchPoints 150)).player.mCurrentResearch
              = some trainingHall := by decide
          rw [hc] at hr
          cases hr
          revert hmem
          decide,
        fun r hr hmem => by
          have hc : (applyOp (applyOp (applyOp exampleGame (LedgerOp.setResearchTree
              [ResearchType.roomLibrary, ResearchType.roomTrainingHall]))
              (LedgerOp.addResearchPoints 150))
              (LedgerOp.addResearch ResearchType.roomLibrary)).player.mCurrentResearch
              = some trainingHall := by decide
          rw [hc] at hr
          cases hr
          revert hmem
          decide,
        trivial⟩⟩

theorem hasLiveCarrier_spawnCarrier (g : Game) (t0 t : ResearchType) :
    hasLiveCarrier (spawnCarrier g t0) t = (hasLiveCarrier g t || decide (t0 = t)) := by
  simp [hasLiveCarrier_eq_any, spawnCarrier, isCarrierOf]

theorem liveCarriers_spawnCarrier (g : Game) (t0 t : ResearchType) :
    liveCarriers (spawnCarrier g t0) t = liveCarriers g t + (if t0 = t then 1 else 0) := by
  by_cases h : t0 = t <;>
    simp [liveCarriers, spawnCarrier, isCarrierOf, List.countP_append, h]

theorem carrierInv_removeCarrier (g : Game) (t : ResearchType) (hinv : carrierInv g) :
    carrierInv (removeCarrier g t) := by
  have hsub : ((removeCarrier g t).gameMap.renderedMovableEntities).Sublist
      g.gameMap.renderedMovableEntities := List.eraseP_sublist _
  constructor
  · intro r hr
    have h0 := (hasLiveCarrier_false_iff g r.getType).mp (hinv.1 r hr)
    rw [hasLiveCarrier_false_iff]
    have hle : liveCarriers (removeCarrier g t) r.getType ≤ liveCarriers g r.getType :=
      List.Sublist.countP_le _ hsub
    omega
  · intro t2
    have hle : liveCarriers (removeCarrier g t) t2 ≤ liveCarriers g t2 :=
      List.Sublist.countP_le _ hsub
    exact Nat.le_trans hle (hinv.2 t2)

theorem carrierStep_points_none (g : Game) (n : Int)
    (h : (addResearchPoints g n).1 = none) :
    carrierStep g (CarrierEvent.addResearchPoints n) = (addResearchPoints g n).2 := by
  simp only [carrierStep]
  rcases hres : addResearchPoints g n with ⟨ret, g1⟩
  rw [hres] at h
  simp only at h
  subst h
  rfl

theorem carrierStep_points_some (g : Game) (n : Int) (r : Research)
    (h : (addResearchPoints g n).1 = some r) :
    carrierStep g (CarrierEvent.addResearchPoints n)
      = spawnCarrier (addResearchPoints g n).2 r.getType := by
  simp only [carrierStep]
  rcases hres : addResearchPoints g n with ⟨ret, g1⟩
  rw [hres] at h
  simp only at h
  subst h
  rfl

theorem carrierInv_carrierStep (g : Game) (ev : CarrierEvent) (hinv : carrierInv g) :
    carrierInv (carrierStep g ev) := by
  cases ev with
  | setResearchTree L =>
    obtain ⟨hm, hseat, hcur⟩ := setResearchTree_same_map g L
    exact carrierInv_of_same_map hinv hm hseat hcur
  | setResearchesDone L =>
    exact carrierInv_of_same_map hinv (setResearchesDone_gameMap g L).1
      (setResearchesDone_gameMap g L).2 (Or.inl (setResearchesDone_current g L))
  | addResearchPoints n =>
    obtain ⟨hm, hseat, hcases⟩ := addResearchPoints_same_map g n
    rcases hcases with ⟨hnone, hcur⟩ | ⟨r0, hsome, hold, hnew⟩
    · rw [carrierStep_points_none g n hnone]
      exact carrierInv_of_same_map hinv hm hseat (Or.inl hcur)
    · rw [carrierStep_points_some g n r0 hsome]
      have hfree : hasLiveCarrier g r0.getType = false := hinv.1 r0 hold
      constructor
      · intro r hr
        have hr2 : (addResearchPoints g n).2.player.mCurrentResearch = some r := hr
        obtain ⟨h1, h2⟩ := hnew r hr2
        rw [hasLiveCarrier_spawnCarrier, hasLiveCarrier_congr hm hseat, h1]
        simp [Ne.symm h2]
      · intro t
        rw [liveCarriers_spawnCarrier, liveCarriers_congr hm hseat]
        by_cases ht : r0.getType = t
        · subst ht
          rw [(hasLiveCarrier_false_iff g _).mp hfree]
          simp
        · simp only [ht, if_false, add_zero]
          exact hinv.2 t
  | carrierArrives t =>
    simp only [carrierStep]
    split_ifs with h
    · obtain ⟨hm, hseat, hcur⟩ := addResearch_same_map (removeCarrier g t) t
      exact carrierInv_of_same_map (carrierInv_removeCarrier g t hinv) hm hseat (Or.inl hcur)
    · exact hinv

theorem carrierStep_done (g : Game) (ev : CarrierEvent) (t : ResearchType)
    (ht : t ∈ (carrierStep g ev).player.mResearchDone) :
    t ∈ g.player.mResearchDone ∨ ev = CarrierEvent.carrierArrives t ∨
      ∃ L, ev = CarrierEvent.setResearchesDone L ∧ t ∈ L := by
  cases ev with
  | setResearchTree L =>
    left
    simpa [carrierStep, setResearchTree_done] using ht
  | setResearchesDone L =>
    right; right
    refine ⟨L, rfl, ?_⟩
    simpa [carrierStep, setResearchesDone_done] using ht
  | addResearchPoints n =>
    left
    rw [← addResearchPoints_done g n]
    cases hret : (addResearchPoints g n).1 with
    | none =>
      rw [carrierStep_points_none g n hret] at ht
      exact ht
    | some r =>
      rw [carrierStep_points_some g n r hret] at ht
      exact ht
  | carrierArrives t2 =>
    simp only [carrierStep] at ht
    split_ifs at ht with h
    · unfold addResearch at ht
      split_ifs at ht with h2
      · exact Or.inl ht
      · rw [setResearchesDone_done] at ht
        rcases List.mem_append.mp ht with h3 | h3
        · exact Or.inl h3
        · right; left
          rw [List.mem_singleton.mp h3]
    · exact Or.inl ht

/-- C13, as stated, fails in its last part: `setResearchesDone` is one of the calls of the
run and puts into the done list whatever it is given. From a fresh player, after the tree
`[roomLibrary]` is accepted and `addResearchPoints(100)` has completed the library and
its carrier has been spawned, `setResearchesDone([roomLibrary])` marks the library done
while its carrier is still on the map and has never arrived. -/
theorem done_without_carrier_arrival :
    CarrierEvent.carrierArrives ResearchType.roomLibrary ∉
        [CarrierEvent.setResearchTree [ResearchType.roomLibrary],
         CarrierEvent.addResearchPoints 100,
         CarrierEvent.setResearchesDone [ResearchType.roomLibrary]] ∧
      hasLiveCarrier (carrierRun exampleGame
        [CarrierEvent.setResearchTree [ResearchType.roomLibrary],
         CarrierEvent.addResearchPoints 100,
         CarrierEvent.setResearchesDone [ResearchType.roomLibrary]])
        ResearchType.roomLibrary = true ∧
      ResearchType.roomLibrary ∈ (carrierRun exampleGame
        [CarrierEvent.setResearchTree [ResearchType.roomLibrary],
         CarrierEvent.addResearchPoints 100,
         CarrierEvent.setResearchesDone [ResearchType.roomLibrary]]).player.mResearchDone := by
  decide

/-- C13, amended: in every run in which a carrier is spawned exactly when
`addResearchPoints` returns a research and is removed exactly when it arrives
(`addResearch`), interleaved with any `setResearchTree`, `addResearchPoints` and
`setResearchesDone` calls, and started in a state where the current research has no live
carrier of the seat and no research has two (a fresh player, for one), the current
research is never one that has a live carrier of the seat and no research ever has more
than one live carrier of the seat; and a research is in the done list at the end only if
it was there at the start, its carrier arrived, or a `setResearchesDone` call listed it. -/
theorem carrierInv_of_run (events : List CarrierEvent) :
    ∀ g : Game, carrierInv g →
      carrierInv (carrierRun g events) ∧
      ∀ t, t ∈ (carrierRun g events).player.mResearchDone →
        t ∈ g.player.mResearchDone ∨ CarrierEvent.carrierArrives t ∈ events ∨
          ∃ L, CarrierEvent.setResearchesDone L ∈ events ∧ t ∈ L := by
  induction events with
  | nil =>
    intro g hinv
    exact ⟨hinv, fun t ht => Or.inl ht⟩
  | cons ev rest ih =>
    intro g hinv
    have hstep := carrierInv_carrierStep g ev hinv
    obtain ⟨h1, h2⟩ := ih (carrierStep g ev) hstep
    have hrun : carrierRun g (ev :: rest) = carrierRun (carrierStep g ev) rest := rfl
    rw [hrun]
    refine ⟨h1, ?_⟩
    intro t ht
    rcases h2 t ht with h | h | ⟨L, hL, htL⟩
    · rcases carrierStep_done g ev t h with h3 | h3 | ⟨L, hL, htL⟩
      · exact Or.inl h3
      · exact Or.inr (Or.inl (by simp [h3]))
      · exact Or.inr (Or.inr ⟨L, by simp [hL], htL⟩)
    · exact Or.inr (Or.inl (by simp [h]))
    · exact Or.inr (Or.inr ⟨L, by simp [hL], htL⟩)

/-- C13, amended, on a run from the fresh player: the library is completed and its
carrier spawned, the same tree is proposed again, the training hall is completed, and the
carrier of the library arrives. -/
theorem carrierInv_of_run_witness :
    carrierInv (carrierRun exampleGame
      [CarrierEvent.setResearchTree [ResearchType.roomLibrary, ResearchType.roomTrainingHall],
       CarrierEvent.addResearchPoints 150,
       CarrierEvent.setResearchTree [ResearchType.roomLibrary, ResearchType.roomTrainingHall],
       CarrierEvent.addResearchPoints 0,
       CarrierEvent.carrierArrives ResearchType.roomLibrary]) ∧
      (carrierRun exampleGame
      [CarrierEvent.setResearchTree [ResearchType.roomLibrary, ResearchType.roomTrainingHall],
       CarrierEvent.addResearchPoints 150,
       CarrierEvent.setResearchTree [ResearchType.roomLibrary, ResearchType.roomTrainingHall],
       CarrierEvent.addResearchPoints 0,
       CarrierEvent.carrierArrives ResearchType.roomLibrary]).player.mResearchDone
        = [ResearchType.roomLibrary] :=
  ⟨(carrierInv_of_run _ exampleGame
      ⟨fun r hr => by simp [exampleGame, freshGame, Player.new] at hr,
       fun t => by simp [liveCarriers, exampleGame, freshGame]⟩).1,
    by decide⟩

/-! ## A seat told to stop observing is no longer recorded -/

theorem removeEntity_mem_notify (w : SeatTable) (spell : Spell) (seats : List Nat) (s : Nat)
    (h : VisionEvent.removeEntity s ∈ (notifySeatsWithVision w spell seats).2) :
    s ∈ spell.mSeatsWithVisionNotified ∧ keepsVision w spell.mSeat seats s = false ∧
      firesTo w s = true := by
  have hpos := List.count_pos_iff.mpr h
  unfold notifySeatsWithVision at hpos
  simp only [gainVision_count_remove, loseVision_count_remove] at hpos
  have hmem := List.count_pos_iff.mp hpos
  have hp := List.mem_filter.mp hmem
  refine ⟨hp.1, ?_, ?_⟩
  · have := hp.2
    simp only [Bool.and_eq_true, Bool.not_eq_true'] at this
    exact this.1
  · have := hp.2
    simp only [Bool.and_eq_true] at this
    exact this.2

/-- C21: every seat for which `notifySeatsWithVision` fires a remove event is absent from
the record when the call returns. It fails the test of the first loop, so every
occurrence of it is erased there; it is not among the seats given, so the second loop
does not push it back; and it is neither the caster's seat nor, `getAlliedSeats` listing
only seats for which `isAlliedSeat` holds, one of the seats of the third loop. -/
theorem notifySeatsWithVision_removed_seat_absent (w : SeatTable) (spell : Spell)
    (seats : List Nat)
    (hallied : ∀ a ∈ w.getAlliedSeats spell.mSeat, w.isAlliedSeat spell.mSeat a = true)
    (s : Nat) (hfired : VisionEvent.removeEntity s ∈ (notifySeatsWithVision w spell seats).2) :
    s ∉ (notifySeatsWithVision w spell seats).1.mSeatsWithVisionNotified := by
  obtain ⟨_, hkeep, _⟩ := removeEntity_mem_notify w spell seats s hfired
  have hk : ¬ keepsVision w spell.mSeat seats s = true := by simp [hkeep]
  unfold keepsVision at hk
  simp only [Bool.or_eq_true, decide_eq_true_eq, not_or] at hk
  obtain ⟨⟨hseats, howner⟩, hally⟩ := hk
  rw [notifySeatsWithVision_mem]
  rintro (⟨_, h⟩ | h | h | h)
  · rw [hkeep] at h
    exact Bool.noConfusion h
  · exact hseats h
  · exact hally (hallied s h)
  · exact howner h.symm

/-- C21 on the example: with seat 5 given, seat 3 gets a remove event and is not in the
record afterwards. -/
theorem notifySeatsWithVision_removed_seat_absent_witness :
    VisionEvent.removeEntity 3 ∈ (notifySeatsWithVision exampleSeats exampleSpell [5]).2 ∧
      3 ∉ (notifySeatsWithVision exampleSeats exampleSpell [5]).1.mSeatsWithVisionNotified :=
  ⟨by decide,
    notifySeatsWithVision_removed_seat_absent exampleSeats exampleSpell [5]
      (fun a ha => by
        simp only [exampleSeats, exampleSpell, if_true, List.mem_singleton] at ha
        subst ha
        rfl)
      3 (by decide)⟩

/-! ## Dispatch on the spell type (`Spell::getSpellCost`, `Spell::castSpell`) -/

/-- Modelled from the spec: the enum `SpellType` is declared in `spell/SpellType.h`, which
is not part of the sources at hand. The constructors are the identities that `Spell.cpp`
names; `other` stands for the values outside this closed set, such as an enum read from a
stream or packet can hold. -/
inductive SpellType where
  | nullSpellType
  | summonWorker
  | callToWar
  | creatureHeal
  | creatureExplode
  | other (value : Int)
  deriving DecidableEq, Repr

/-- The type of the cost functions: targets, game map, spell type, the two tiles and the
player (by its id). -/
abbrev SpellCostFunction :=
  List Nat → GameMap → SpellType → Int → Int → Int → Int → Int → Int

/-- Modelled from the spec: the cost functions that `getSpellCost` dispatches to
(`SpellManager::getSpellCost`, `SpellCallToWar::getSpellCallToWarCost`,
`SpellCreatureHeal::getSpellCreatureHealCost`,
`SpellCreatureExplode::getSpellCreatureExplodeCost`) are missing from the sources; they
are taken as given. -/
structure SpellCosts where
  spellManagerGetSpellCost : SpellCostFunction
  getSpellCallToWarCost : SpellCostFunction
  getSpellCreatureHealCost : SpellCostFunction
  getSpellCreatureExplodeCost : SpellCostFunction

/-- A call of an execute routine made by `castSpell`, with its arguments (the targets and
the player, by its id). The routines themselves (`SpellManager::castSpell`,
`SpellCallToWar::castSpellCallToWar`, `SpellCreatureExplode::castSpellCreatureExplode`)
are missing from the sources; what they do to the world is not modelled. -/
inductive SpellExecution where
  | spellManagerCastSpell (type : SpellType) (targets : List Nat) (player : Int)
  | castSpellCallToWar (targets : List Nat) (player : Int)
  | castSpellCreatureExplode (targets : List Nat) (player : Int)
  deriving DecidableEq, Repr

/-- A failed `OD_ASSERT_TRUE_MSG` of `Spell.cpp`. -/
inductive SpellDiagnostic where
  | wrongSpellCasted (player : Int)
  | unknownEnumValue (type : SpellType)
  | summonWorkerNotInStream
  | summonWorkerNotInPacket
  deriving DecidableEq, Repr

/-- `Spell::getSpellCost`: the cost returned and the diagnostics logged. -/
def getSpellCost (costs : SpellCosts) (targets : List Nat) (gameMap : GameMap)
    (type : SpellType) (tileX1 tileY1 tileX2 tileY2 : Int) (player : Int) :
    Int × List SpellDiagnostic :=
  match type with
  | SpellType.nullSpellType => (0, [])
  | SpellType.summonWorker =>
    (costs.spellManagerGetSpellCost targets gameMap type tileX1 tileY1 tileX2 tileY2 player,
      [])
  | SpellType.callToWar =>
    (costs.getSpellCallToWarCost targets gameMap type tileX1 tileY1 tileX2 tileY2 player, [])
  | SpellType.creatureHeal =>
    (costs.getSpellCreatureHealCost targets gameMap type tileX1 tileY1 tileX2 tileY2 player,
      [])
  | SpellType.creatureExplode =>
    (costs.getSpellCreatureExplodeCost targets gameMap type tileX1 tileY1 tileX2 tileY2
      player, [])
  | SpellType.other _ => (0, [SpellDiagnostic.unknownEnumValue type])

/-- `Spell::castSpell`: the execute routines called, in order, and the diagnostics logged.
The game map pointer is handed on to the routines as it is and is left out. The case of
`creatureHeal` holds a commented-out call and nothing else. -/
def castSpell (type : SpellType) (targets : List Nat) (player : Int) :
    List SpellExecution × List SpellDiagnostic :=
  match type with
  | SpellType.nullSpellType => ([], [SpellDiagnostic.wrongSpellCasted player])
  | SpellType.summonWorker =>
    ([SpellExecution.spellManagerCastSpell type targets player], [])
  | SpellType.callToWar => ([SpellExecution.castSpellCallToWar targets player], [])
  | SpellType.creatureHeal => ([], [])
  | SpellType.creatureExplode =>
    ([SpellExecution.castSpellCreatureExplode targets player], [])
  | SpellType.other _ => ([], [SpellDiagnostic.unknownEnumValue type])

/-- Cost functions for the examples: each identity has its own constant cost. -/
def exampleCosts : SpellCosts :=
  { spellManagerGetSpellCost := fun _ _ _ _ _ _ _ _ => 50
    getSpellCallToWarCost := fun _ _ _ _ _ _ _ _ => 100
    getSpellCreatureHealCost := fun _ _ _ _ _ _ _ _ => 150
    getSpellCreatureExplodeCost := fun _ _ _ _ _ _ _ _ => 200 }

/-- C22: for the null identity and for every value outside the closed set,
`getSpellCost` returns 0 and `castSpell` calls no execute routine, whatever the cost
functions, targets, game map, tiles and player. -/
theorem dispatch_neutral_result (costs : SpellCosts) (targets : List Nat)
    (gameMap : GameMap) (type : SpellType) (tileX1 tileY1 tileX2 tileY2 : Int)
    (player : Int)
    (htype : type = SpellType.nullSpellType ∨ ∃ value, type = SpellType.other value) :
    (getSpellCost costs targets gameMap type tileX1 tileY1 tileX2 tileY2 player).1 = 0 ∧
      (castSpell type targets player).1 = [] := by
  rcases htype with h | ⟨value, h⟩
  · subst h
    exact ⟨rfl, rfl⟩
  · subst h
    exact ⟨rfl, rfl⟩

/-- C22 on an example: the value 99 is outside the closed set. -/
theorem dispatch_neutral_result_witness :
    (getSpellCost exampleCosts [7] exampleGame.gameMap (SpellType.other 99) 1 2 3 4 1).1 = 0 ∧
      (castSpell (SpellType.other 99) [7] 1).1 = [] :=
  dispatch_neutral_result exampleCosts [7] exampleGame.gameMap (SpellType.other 99) 1 2 3 4 1
    (Or.inr ⟨99, rfl⟩)

/-- C23, as stated, fails: for the null identity `getSpellCost` returns 0 from a case of
its own, which logs nothing. -/
theorem getSpellCost_null_logs_nothing :
    getSpellCost exampleCosts [7] exampleGame.gameMap SpellType.nullSpellType 1 2 3 4 1
      = (0, []) := by
  rfl

/-- C23, amended: for every value outside the closed set, `getSpellCost` and `castSpell`
each log exactly one diagnostic; for the null identity `castSpell` logs exactly one
diagnostic and `getSpellCost` logs none. The results are the neutral ones in all these
cases. -/
theorem dispatch_diagnostics (costs : SpellCosts) (targets : List Nat) (gameMap : GameMap)
    (tileX1 tileY1 tileX2 tileY2 : Int) (player : Int) :
    (∀ value,
      (getSpellCost costs targets gameMap (SpellType.other value) tileX1 tileY1 tileX2 tileY2
          player) = (0, [SpellDiagnostic.unknownEnumValue (SpellType.other value)]) ∧
      castSpell (SpellType.other value) targets player
        = ([], [SpellDiagnostic.unknownEnumValue (SpellType.other value)])) ∧
    castSpell SpellType.nullSpellType targets player
      = ([], [SpellDiagnostic.wrongSpellCasted player]) ∧
    getSpellCost costs targets gameMap SpellType.nullSpellType tileX1 tileY1 tileX2 tileY2
      player = (0, []) :=
  ⟨fun _ => ⟨rfl, rfl⟩, rfl, rfl⟩

/-- C24, as stated, fails for `creatureHeal`: its case in `castSpell` holds only a
commented-out call, so no execute routine is called, while its cost is dispatched. -/
theorem castSpell_creatureHeal_executes_nothing :
    (castSpell SpellType.creatureHeal [7] 1).1 = [] ∧
      (getSpellCost exampleCosts [7] exampleGame.gameMap SpellType.creatureHeal 1 2 3 4 1).1
        = 150 := by
  exact ⟨rfl, rfl⟩

/-- C24, amended: `getSpellCost` returns, for each of `summonWorker`, `callToWar`,
`creatureHeal` and `creatureExplode`, the value of the cost function of that identity
called with the same targets, game map, type, tiles and player, and logs nothing;
`castSpell` calls, for each of `summonWorker`, `callToWar` and `creatureExplode`, the
execute routine of that identity exactly once with the same targets and player, and for
`creatureHeal` it calls none. -/
theorem dispatch_binds_identities (costs : SpellCosts) (targets : List Nat)
    (gameMap : GameMap) (tileX1 tileY1 tileX2 tileY2 : Int) (player : Int) :
    (getSpellCost costs targets gameMap SpellType.summonWorker tileX1 tileY1 tileX2 tileY2
        player
      = (costs.spellManagerGetSpellCost targets gameMap SpellType.summonWorker tileX1 tileY1
          tileX2 tileY2 player, []) ∧
    getSpellCost costs targets gameMap SpellType.callToWar tileX1 tileY1 tileX2 tileY2 player
      = (costs.getSpellCallToWarCost targets gameMap SpellType.callToWar tileX1 tileY1
          tileX2 tileY2 player, []) ∧
    getSpellCost costs targets gameMap SpellType.creatureHeal tileX1 tileY1 tileX2 tileY2
        player
      = (costs.getSpellCreatureHealCost targets gameMap SpellType.creatureHeal tileX1 tileY1
          tileX2 tileY2 player, []) ∧
    getSpellCost costs targets gameMap SpellType.creatureExplode tileX1 tileY1 tileX2 tileY2
        player
      = (costs.getSpellCreatureExplodeCost targets gameMap SpellType.creatureExplode tileX1
          tileY1 tileX2 tileY2 player, [])) ∧
    (castSpell SpellType.summonWorker targets player
      = ([SpellExecution.spellManagerCastSpell SpellType.summonWorker targets player], []) ∧
    castSpell SpellType.callToWar targets player
      = ([SpellExecution.castSpellCallToWar targets player], []) ∧
    castSpell SpellType.creatureExplode targets player
      = ([SpellExecution.castSpellCreatureExplode targets player], []) ∧
    castSpell SpellType.creatureHeal targets player = ([], [])) :=
  ⟨⟨rfl, rfl, rfl, rfl⟩, rfl, rfl, rfl, rfl⟩

/-! ## Decoding a spell from its type tag -/

/-- The classes of spell that the decoders construct. -/
inductive SpellClass where
  | spellCallToWar
  deriving DecidableEq, Repr

/-- Modelled from the spec: `SpellCallToWar::getSpellType` (`spell/SpellCallToWar.h`) is
missing from the sources; the identity of a `SpellCallToWar` is `callToWar`. -/
def SpellClass.getSpellType : SpellClass → SpellType
  | SpellClass.spellCallToWar => SpellType.callToWar

/-- `Spell::getSpellFromStream`, from the tag that `is >> type` has read on: the spell
constructed (`none` for `nullptr`) and the diagnostics logged. -/
def getSpellFromStream (type : SpellType) : Option SpellClass × List SpellDiagnostic :=
  match type with
  | SpellType.nullSpellType => (none, [])
  | SpellType.summonWorker => (none, [SpellDiagnostic.summonWorkerNotInStream])
  | SpellType.callToWar => (some SpellClass.spellCallToWar, [])
  | _ => (none, [SpellDiagnostic.unknownEnumValue type])

/-- `Spell::getSpellFromPacket`, from the tag that `is >> type` has read on. -/
def getSpellFromPacket (type : SpellType) : Option SpellClass × List SpellDiagnostic :=
  match type with
  | SpellType.nullSpellType => (none, [])
  | SpellType.summonWorker => (none, [SpellDiagnostic.summonWorkerNotInPacket])
  | SpellType.callToWar => (some SpellClass.spellCallToWar, [])
  | _ => (none, [SpellDiagnostic.unknownEnumValue type])

/-- C25: for every tag value that is not a spell identity, `getSpellFromStream` and
`getSpellFromPacket` construct nothing and return no spell, and each logs the unknown
value. -/
theorem decoders_reject_unknown_tag (value : Int) :
    getSpellFromStream (SpellType.other value)
        = (none, [SpellDiagnostic.unknownEnumValue (SpellType.other value)]) ∧
      getSpellFromPacket (SpellType.other value)
        = (none, [SpellDiagnostic.unknownEnumValue (SpellType.other value)]) :=
  ⟨rfl, rfl⟩

/-- C26, as stated, fails: of the non-null identities only `callToWar` is constructed.
For `summonWorker` both decoders refuse by a case of their own, and `creatureHeal` and
`creatureExplode` fall to the default case; no spell is constructed for any of them. -/
theorem decoders_construct_no_summonWorker :
    (getSpellFromStream SpellType.summonWorker).1 = none ∧
      (getSpellFromPacket SpellType.summonWorker).1 = none ∧
      (getSpellFromStream SpellType.creatureHeal).1 = none ∧
      (getSpellFromPacket SpellType.creatureExplode).1 = none :=
  ⟨rfl, rfl, rfl, rfl⟩

/-- C26, amended: on the tag `callToWar` both decoders construct a spell whose identity
is `callToWar`; on the tag `summonWorker` both refuse, by a case of their own, and
construct nothing; and for every tag the two decoders give the same result: a
`SpellCallToWar` on the tag `callToWar` and no spell on any other tag. -/
theorem decoders_agree_on_every_tag :
    (∃ spell, (getSpellFromStream SpellType.callToWar).1 = some spell ∧
        (getSpellFromPacket SpellType.callToWar).1 = some spell ∧
        spell.getSpellType = SpellType.callToWar) ∧
      (getSpellFromStream SpellType.summonWorker).1 = none ∧
      (getSpellFromPacket SpellType.summonWorker).1 = none ∧
      (∀ type, (getSpellFromStream type).1 = (getSpellFromPacket type).1) ∧
      (∀ type, (getSpellFromStream type).1
        = if type = SpellType.callToWar then some SpellClass.spellCallToWar else none) := by
  refine ⟨⟨SpellClass.spellCallToWar, rfl, rfl, rfl⟩, rfl, rfl, ?_, ?_⟩
  · intro type
    cases type <;> rfl
  · intro type
    cases type <;> simp [getSpellFromStream]

/-! ## Encoding a spell, and the round trip

The stream is the text form: a sequence of fields, each written with `<<` and a tab. A
field is the integer written; its decimal text is not modelled. The packet is the binary
form: a sequence of bytes. Neither holds a mark of where a field or a block ends: the
reader takes the widths from the type it is reading. -/

/-- Modelled from the spec: the binary form of a 32-bit integer (`ODPacket` is missing
from the sources): four bytes, the most significant first, of the value modulo `2^32`. -/
def int32ToBytes (v : Int) : List Nat :=
  [(v % 4294967296).toNat / 16777216 % 256, (v % 4294967296).toNat / 65536 % 256,
   (v % 4294967296).toNat / 256 % 256, (v % 4294967296).toNat % 256]

theorem int32ToBytes_lt (v : Int) : ∀ b ∈ int32ToBytes v, b < 256 := by
  intro b hb
  simp only [int32ToBytes, List.mem_cons, List.mem_singleton, List.not_mem_nil, or_false]
    at hb
  rcases hb with h | h | h | h <;> omega

/-- A call made by `doUpkeep` when the spell has run out. -/
inductive UpkeepCall where
  | removeFromGameMap
  | deleteYourself
  deriving DecidableEq, Repr

/-- `Spell::doUpkeep`: the spell afterwards and the calls made. A counter that is
positive is decreased, which cannot overflow. -/
def doUpkeep (spell : Spell) : Spell × List UpkeepCall :=
  if spell.mNbTurns < 0 then (spell, [])
  else if spell.mNbTurns > 0 then ({ spell with mNbTurns := spell.mNbTurns - 1 }, [])
  else (spell, [UpkeepCall.removeFromGameMap, UpkeepCall.deleteYourself])

/-- The spell after `k` calls of `doUpkeep`, one per turn, or `none` if one of these
calls has removed it from the game map and deleted it. -/
def upkeepTurns : Nat → Spell → Option Spell
  | 0, spell => some spell
  | k + 1, spell =>
    match doUpkeep spell with
    | (spell1, []) => upkeepTurns k spell1
    | (_, _ :: _) => none

theorem upkeepTurns_counts_down (k : Nat) :
    ∀ spell : Spell, (k : Int) ≤ spell.mNbTurns →
      upkeepTurns k spell = some { spell with mNbTurns := spell.mNbTurns - k } := by
  induction k with
  | zero =>
    intro spell _
    simp [upkeepTurns]
  | succ k ih =>
    intro spell h
    have hpos : 0 < spell.mNbTurns := by push_cast at h; omega
    have hdo : doUpkeep spell = ({ spell with mNbTurns := spell.mNbTurns - 1 }, []) := by
      unfold doUpkeep
      simp [hpos, not_lt.mpr (le_of_lt hpos)]
    simp only [upkeepTurns, hdo]
    rw [ih]
    · simp only [Option.some.injEq]
      congr 1
      push_cast
      omega
    · push_cast at h ⊢
      show (k : Int) ≤ spell.mNbTurns - 1
      omega

/-- What `Spell::removeFromGameMap` does, step by step. -/
inductive MapEffect where
  | removeSpell
  | setIsOnMap (isOnMap : Bool)
  | removeAnimatedObject
  | tileRemoveEntity
  | fireRemoveEntityToSeatsWithVision
  | removeActiveObject
  deriving DecidableEq, Repr

/-- `Spell::removeFromGameMap`: the spell is taken off the spells and the animated objects
of the game map and off its tile, if it has one; on the server game map the seats with
vision are told and the spell is taken off the active objects. -/
def removeFromGameMap (isServerGameMap : Bool) (hasPositionTile : Bool) : List MapEffect :=
  [MapEffect.removeSpell, MapEffect.setIsOnMap false, MapEffect.removeAnimatedObject] ++
    (if hasPositionTile then [MapEffect.tileRemoveEntity] else []) ++
    (if !isServerGameMap then []
     else [MapEffect.fireRemoveEntityToSeatsWithVision, MapEffect.removeActiveObject])

theorem upkeepTurns_removes (n : Nat) :
    ∀ spell : Spell, spell.mNbTurns = n → upkeepTurns (n + 1) spell = none := by
  induction n with
  | zero =>
    intro spell h
    have hdo : doUpkeep spell
        = (spell, [UpkeepCall.removeFromGameMap, UpkeepCall.deleteYourself]) := by
      unfold doUpkeep
      simp [show spell.mNbTurns = 0 from by simpa using h]
    simp only [upkeepTurns, hdo]
  | succ n ih =>
    intro spell h
    have hpos : 0 < spell.mNbTurns := by rw [h]; push_cast; omega
    have hdo : doUpkeep spell = ({ spell with mNbTurns := spell.mNbTurns - 1 }, []) := by
      unfold doUpkeep
      simp [hpos, not_lt.mpr (le_of_lt hpos)]
    have hunf : upkeepTurns (n + 1 + 1) spell
        = upkeepTurns (n + 1) { spell with mNbTurns := spell.mNbTurns - 1 } := by
      simp only [upkeepTurns, hdo]
    rw [hunf]
    apply ih
    show spell.mNbTurns - 1 = (n : Int)
    rw [h]
    push_cast
    omega

theorem upkeepTurns_permanent (k : Nat) :
    ∀ spell : Spell, spell.mNbTurns < 0 → upkeepTurns k spell = some spell := by
  induction k with
  | zero => intro spell _; rfl
  | succ k ih =>
    intro spell h
    have hdo : doUpkeep spell = (spell, []) := by
      unfold doUpkeep
      simp [h]
    simp only [upkeepTurns, hdo]
    exact ih spell h

/-- C28: the countdown of a spell. While the turn counter is positive, a call of
`doUpkeep` decreases it by exactly one and removes nothing. A call that finds the counter
at zero calls `removeFromGameMap`, which takes the spell off the game map, and
`deleteYourself`. So a spell with counter `n ≥ 0` is still there, with counter `n - k`,
after `k ≤ n` calls, and is removed by the call number `n + 1`. A spell with a negative
counter is never removed and its counter never changes. -/
theorem doUpkeep_countdown (spell : Spell) :
    (0 < spell.mNbTurns →
      doUpkeep spell = ({ spell with mNbTurns := spell.mNbTurns - 1 }, [])) ∧
    (spell.mNbTurns = 0 →
      doUpkeep spell = (spell, [UpkeepCall.removeFromGameMap, UpkeepCall.deleteYourself]) ∧
      ∀ isServerGameMap hasPositionTile,
        MapEffect.removeSpell ∈ removeFromGameMap isServerGameMap hasPositionTile) ∧
    (∀ n : Nat, spell.mNbTurns = n →
      (∀ k : Nat, k ≤ n →
        upkeepTurns k spell = some { spell with mNbTurns := spell.mNbTurns - k }) ∧
      upkeepTurns (n + 1) spell = none) ∧
    (spell.mNbTurns < 0 →
      doUpkeep spell = (spell, []) ∧ ∀ k, upkeepTurns k spell = some spell) := by
  refine ⟨?_, ?_, ?_, ?_⟩
  · intro hpos
    unfold doUpkeep
    simp [hpos, not_lt.mpr (le_of_lt hpos)]
  · intro h0
    refine ⟨?_, ?_⟩
    · unfold doUpkeep
      simp [h0]
    · intro isServerGameMap hasPositionTile
      simp [removeFromGameMap]
  · intro n hn
    refine ⟨?_, upkeepTurns_removes n spell hn⟩
    intro k hk
    apply upkeepTurns_counts_down
    rw [hn]
    exact_mod_cast hk
  · intro hneg
    refine ⟨?_, fun k => upkeepTurns_permanent k spell hneg⟩
    unfold doUpkeep
    simp [hneg]

/-- C28 on an example: a spell with 2 turns left is there with counter 0 after two calls
and removed by the third; a spell with counter -1 is unchanged after five calls. -/
theorem doUpkeep_countdown_witness :
    upkeepTurns 2 { mSeat := 1, mNbTurns := 2, mSeatsWithVisionNotified := [] }
        = some { mSeat := 1, mNbTurns := 0, mSeatsWithVisionNotified := [] } ∧
      upkeepTurns 3 { mSeat := 1, mNbTurns := 2, mSeatsWithVisionNotified := [] } = none ∧
      upkeepTurns 5 { mSeat := 1, mNbTurns := -1, mSeatsWithVisionNotified := [] }
        = some { mSeat := 1, mNbTurns := -1, mSeatsWithVisionNotified := [] } :=
  ⟨((doUpkeep_countdown { mSeat := 1, mNbTurns := 2, mSeatsWithVisionNotified := [] }).2.2.1
      2 rfl).1 2 (Nat.le_refl 2),
    ((doUpkeep_countdown { mSeat := 1, mNbTurns := 2, mSeatsWithVisionNotified := [] }).2.2.1
      2 rfl).2,
    ((doUpkeep_countdown { mSeat := 1, mNbTurns := -1, mSeatsWithVisionNotified := [] }).2.2.2
      (by decide)).2 5⟩

/-! ## The hand of the player (`Player::dropHand`) -/

/-- What `dropHand` and `rotateHand` do outside the player: the entity is dropped
(`entity->drop`) at the position made of the two coordinates of the tile, each converted
to `Ogre::Real`, and of the height the entity has; the event names the tile, and the
conversion is not carried out. Then either a drop is fired to the clients
(`fireDropEntity`) or a render request is sent (`rrDropHand`); a rotation of the hand
sends a render request (`rrRotateHand`). -/
inductive HandEvent where
  | drop (entity : GameEntity) (tile : Tile)
  | fireDropEntity (entity : GameEntity) (player : Int) (tile : Tile)
  | rrDropHand (entity : GameEntity) (player : Int)
  | rrRotateHand (player : Int)
  deriving DecidableEq, Repr

/-- The result of `dropHand`: the entity returned (`none` for `nullptr`), the game
afterwards and the events in order. -/
structure DropResult where
  entity : Option GameEntity
  game : Game
  events : List HandEvent
  deriving DecidableEq, Repr

/-- `Player::dropHand`. `isLocalPlayer` tells whether the player is the local player of
the game map (`this == mGameMap->getLocalPlayer()`). -/
def dropHand (g : Game) (isLocalPlayer : Bool) (t : Tile) (index : Nat) : DropResult :=
  let g1 : Game :=
    if index < g.player.mObjectsInHand.length then g
    else { g with log := g.log ++ [Diagnostic.dropHandIndex index] }
  if h : index ≥ g.player.mObjectsInHand.length then
    { entity := none, game := g1, events := [] }
  else
    let entity := g.player.mObjectsInHand.get ⟨index, Nat.lt_of_not_ge h⟩
    let g2 : Game := { g1 with player := { g1.player with
      mObjectsInHand := g1.player.mObjectsInHand.eraseIdx index } }
    let dropped := HandEvent.drop entity t
    if g.gameMap.isServerGameMap then
      { entity := some entity, game := g2,
        events := [dropped, HandEvent.fireDropEntity entity g.player.mId t] }
    else
      let g3 : Game :=
        if isLocalPlayer then g2 else { g2 with log := g2.log ++ [Diagnostic.notLocalPlayer] }
      if isLocalPlayer then
        { entity := some entity, game := g3,
          events := [dropped, HandEvent.rrDropHand entity g.player.mId] }
      else
        { entity := some entity, game := g3, events := [dropped] }

/-- C29: `dropHand` with an index that is not below the number of objects in hand is
detected and aborted. It returns no entity; the player, and so the hand, element for
element, is as before; nothing is dropped and neither a drop notification nor a render
request is sent; the notification queue is as before; one failed assertion is logged. -/
theorem dropHand_index_out_of_bounds (g : Game) (isLocalPlayer : Bool) (t : Tile)
    (index : Nat) (hindex : index ≥ g.player.mObjectsInHand.length) :
    (dropHand g isLocalPlayer t index).entity = none ∧
      (dropHand g isLocalPlayer t index).game.player = g.player ∧
      (dropHand g isLocalPlayer t index).game.player.mObjectsInHand
        = g.player.mObjectsInHand ∧
      (dropHand g isLocalPlayer t index).events = [] ∧
      (dropHand g isLocalPlayer t index).game.queue = g.queue ∧
      (dropHand g isLocalPlayer t index).game.gameMap = g.gameMap ∧
      (dropHand g isLocalPlayer t index).game.log
        = g.log ++ [Diagnostic.dropHandIndex index] := by
  have hnot : ¬ index < g.player.mObjectsInHand.length := Nat.not_lt.mpr hindex
  unfold dropHand
  simp only [hindex, hnot, if_false, dite_true]
  exact ⟨trivial, trivial, trivial, trivial, trivial, trivial, trivial⟩

/-- A game whose player holds two creatures in hand. -/
def handGame : Game :=
  { exampleGame with player := { exampleGame.player with
      mObjectsInHand :=
        [{ name := 1, objectType := GameEntityType.creature, seat := none },
         { name := 2, objectType := GameEntityType.creature, seat := none }] } }

/-- C29 on an example: two objects in hand, index 2. -/
theorem dropHand_index_out_of_bounds_witness :
    (dropHand handGame false { x := 3, y := 4 } 2).entity = none ∧
      (dropHand handGame false { x := 3, y := 4 } 2).game.player.mObjectsInHand
        = handGame.player.mObjectsInHand ∧
      (dropHand handGame false { x := 3, y := 4 } 2).events = [] ∧
      (dropHand handGame false { x := 3, y := 4 } 1).entity
        = some { name := 2, objectType := GameEntityType.creature, seat := none } :=
  ⟨(dropHand_index_out_of_bounds handGame false { x := 3, y := 4 } 2 (by decide)).1,
    (dropHand_index_out_of_bounds handGame false { x := 3, y := 4 } 2 (by decide)).2.2.1,
    (dropHand_index_out_of_bounds handGame false { x := 3, y := 4 } 2 (by decide)).2.2.2.1,
    by decide⟩

/-! ## Chat notifications (`notifyNoMoreDungeonTemple`, `notifyNoTreasuryAvailable`) -/

/-- The number of seconds without a new notice that no treasury is available
(`NO_TREASURY_TIME_COUNT`). -/
def NO_TREASURY_TIME_COUNT : Int := 30

/-- A chat message of the server to a player. -/
def chatServerTo (player : Player) (message : ChatMessage) : ServerNotification :=
  { mType := ServerNotificationType.chatServer
    mConcernedPlayer := player.mId
    mPacket := [PacketField.chat message] }

/-- The two loops of `notifyNoMoreDungeonTemple` over the seats of the game map: a seat
is passed over when it has no player, when its player is not human, and when it is not
allied to the seat of the player; the others get a chat message. The comparison of
pointers `this == seat->getPlayer()` is taken as given: `isThis s` tells whether the
player of the seat `s` is the very player the operation is called on. -/
def lostNotifications (w : SeatTable) (seat : Nat) (isThis : Nat → Bool)
    (hasTeamLost : Bool) : List Nat → List ServerNotification
  | [] => []
  | s :: rest =>
    match w.getPlayer s with
    | none => lostNotifications w seat isThis hasTeamLost rest
    | some player =>
      if !player.mIsHuman then lostNotifications w seat isThis hasTeamLost rest
      else if !w.isAlliedSeat seat s then lostNotifications w seat isThis hasTeamLost rest
      else if hasTeamLost then
        chatServerTo player ChatMessage.youLostTheGame ::
          lostNotifications w seat isThis hasTeamLost rest
      else if isThis s then
        chatServerTo player ChatMessage.youLost ::
          lostNotifications w seat isThis hasTeamLost rest
      else
        chatServerTo player ChatMessage.anAllyHasLost ::
          lostNotifications w seat isThis hasTeamLost rest

/-- `Player::notifyNoMoreDungeonTemple`. `seat` is the seat of the player (what
`getSeat()` points to), `isThis` tells of each seat whether its player is the player the
operation is called on, `seats` are the seats of the game map and `dungeonTemples` the
seats of its dungeon temples. -/
def notifyNoMoreDungeonTemple (w : SeatTable) (isThis : Nat → Bool) (seats : List Nat)
    (dungeonTemples : List Nat) (seat : Nat) (g : Game) : Game :=
  if g.player.mIsPlayerLostSent then g
  else
    let player := { g.player with mIsPlayerLostSent := true }
    let hasTeamLost := !dungeonTemples.any (fun templeSeat => w.isAlliedSeat seat templeSeat)
    { g with
      player := player
      queue := g.queue ++ lostNotifications w seat isThis hasTeamLost seats }

/-- `Player::notifyNoTreasuryAvailable`. -/
def notifyNoTreasuryAvailable (g : Game) : Game :=
  if g.player.mNoTreasuryAvailableTime = 0 then
    let player := { g.player with mNoTreasuryAvailableTime := NO_TREASURY_TIME_COUNT }
    { g with
      player := player
      queue := g.queue ++ [chatServerTo player ChatMessage.noTreasuryAvailable] }
  else g

theorem lostNotifications_to_humans (w : SeatTable) (seat : Nat) (isThis : Nat → Bool)
    (hasTeamLost : Bool) :
    ∀ (seats : List Nat) (n : ServerNotification),
      n ∈ lostNotifications w seat isThis hasTeamLost seats →
        n.mType = ServerNotificationType.chatServer ∧
        ∃ s ∈ seats, ∃ player, w.getPlayer s = some player ∧ player.mIsHuman = true ∧
          n.mConcernedPlayer = player.mId := by
  intro seats
  induction seats with
  | nil => intro n hn; simp [lostNotifications] at hn
  | cons a rest ih =>
    intro n hn
    have hrest : n ∈ lostNotifications w seat isThis hasTeamLost rest →
        n.mType = ServerNotificationType.chatServer ∧
        ∃ s ∈ a :: rest, ∃ player, w.getPlayer s = some player ∧ player.mIsHuman = true ∧
          n.mConcernedPlayer = player.mId := by
      intro h
      obtain ⟨h1, s, hs, player, hp⟩ := ih n h
      exact ⟨h1, s, List.mem_cons_of_mem a hs, player, hp⟩
    unfold lostNotifications at hn
    cases hp : w.getPlayer a with
    | none =>
      simp only [hp] at hn
      exact hrest hn
    | some player =>
      simp only [hp] at hn
      cases hh : player.mIsHuman with
      | false =>
        simp only [hh, Bool.not_false, if_true] at hn
        exact hrest hn
      | true =>
        have hhere : ∀ m, n = chatServerTo player m →
            n.mType = ServerNotificationType.chatServer ∧
            ∃ s ∈ a :: rest, ∃ player, w.getPlayer s = some player ∧
              player.mIsHuman = true ∧ n.mConcernedPlayer = player.mId := by
          intro m hm
          subst hm
          exact ⟨rfl, a, by simp, player, hp, hh, rfl⟩
        simp only [hh, Bool.not_true, Bool.false_eq_true, if_false] at hn
        split_ifs at hn
        · exact hrest hn
        · rcases List.mem_cons.mp hn with h | h
          · exact hhere _ h
          · exact hrest h
        · rcases List.mem_cons.mp hn with h | h
          · exact hhere _ h
          · exact hrest h
        · rcases List.mem_cons.mp hn with h | h
          · exact hhere _ h
          · exact hrest h

/-- C30, as stated, fails: `notifyNoTreasuryAvailable` does not look at the human flag.
Called on the fresh player of the example, which is not human and whose counter is 0, it
enqueues a chat message of the server addressed to that player. -/
theorem notifyNoTreasuryAvailable_chats_to_computer :
    exampleGame.player.mIsHuman = false ∧
      (notifyNoTreasuryAvailable exampleGame).queue
        = [{ mType := ServerNotificationType.chatServer
             mConcernedPlayer := exampleGame.player.mId
             mPacket := [PacketField.chat ChatMessage.noTreasuryAvailable] }] := by
  decide

/-- C30, amended: `notifyNoMoreDungeonTemple` enqueues nothing but chat messages of the
server, each to the player of a seat of the game map whose human flag is set, whatever
the seats, the alliances, the dungeon temples, the state of the player and the seat
whose player it is.
`notifyNoTreasuryAvailable` enqueues at most one chat message, to the player it is called
on, without looking at the human flag; so the message goes to a human player when the
operation is called on human players only, as its declaration asks. -/
theorem chat_notifications_to_humans (w : SeatTable) (isThis : Nat → Bool)
    (seats : List Nat) (dungeonTemples : List Nat) (seat : Nat) (g : Game) :
    (∃ added, (notifyNoMoreDungeonTemple w isThis seats dungeonTemples seat g).queue
        = g.queue ++ added ∧
      ∀ n ∈ added, n.mType = ServerNotificationType.chatServer ∧
        ∃ s ∈ seats, ∃ player, w.getPlayer s = some player ∧ player.mIsHuman = true ∧
          n.mConcernedPlayer = player.mId) ∧
    (∃ added, (notifyNoTreasuryAvailable g).queue = g.queue ++ added ∧
      added.length ≤ 1 ∧
      ∀ n ∈ added, n.mType = ServerNotificationType.chatServer ∧
        n.mConcernedPlayer = g.player.mId) := by
  constructor
  · unfold notifyNoMoreDungeonTemple
    split_ifs with hsent
    · exact ⟨[], by simp, fun n hn => by simp at hn⟩
    · exact ⟨_, rfl, fun n hn => lostNotifications_to_humans w seat isThis _ seats n hn⟩
  · unfold notifyNoTreasuryAvailable
    split_ifs with htime
    · refine ⟨_, rfl, Nat.le_refl 1, ?_⟩
      intro n hn
      rw [List.mem_singleton] at hn
      subst hn
      exact ⟨rfl, rfl⟩
    · exact ⟨[], by simp, by simp, fun n hn => by simp at hn⟩

/-- A game whose player is human and sits on seat 1. -/
def humanGame : Game :=
  { exampleGame with player := { humanPlayer with mSeat := some 1 } }

/-- C30, amended, on the example seats (seat 4 has a computer player allied to no one,
seats 1 and 2 are allied and human): no dungeon temple is left, the human players of the
seats allied to seat 1 are told, and the computer player is not. -/
theorem chat_notifications_to_humans_witness :
    (notifyNoMoreDungeonTemple exampleSeats (fun s => s == 1) [1, 2, 3, 4] [] 1
        humanGame).queue
        = [chatServerTo humanPlayer ChatMessage.youLostTheGame] ∧
      ∃ added, (notifyNoMoreDungeonTemple exampleSeats (fun s => s == 1) [1, 2, 3, 4] [] 1
          humanGame).queue
          = humanGame.queue ++ added ∧
        ∀ n ∈ added, n.mType = ServerNotificationType.chatServer ∧
          ∃ s ∈ [1, 2, 3, 4], ∃ player, exampleSeats.getPlayer s = some player ∧
            player.mIsHuman = true ∧ n.mConcernedPlayer = player.mId :=
  ⟨by decide,
    (chat_notifications_to_humans exampleSeats (fun s => s == 1) [1, 2, 3, 4] [] 1
      humanGame).1⟩

/-! ## Dropping from the hand, within bounds -/

theorem dropHand_of_lt (g : Game) (isLocalPlayer : Bool) (t : Tile) (index : Nat)
    (h : index < g.player.mObjectsInHand.length) :
    (dropHand g isLocalPlayer t index).entity
        = some (g.player.mObjectsInHand.get ⟨index, h⟩) ∧
      (dropHand g isLocalPlayer t index).game.player.mObjectsInHand
        = g.player.mObjectsInHand.eraseIdx index := by
  have hnot : ¬ index ≥ g.player.mObjectsInHand.length := Nat.not_le.mpr h
  unfold dropHand
  simp only [h, hnot, if_true, dite_false]
  cases hs : g.gameMap.isServerGameMap
  · cases isLocalPlayer
    · exact ⟨rfl, rfl⟩
    · exact ⟨rfl, rfl⟩
  · exact ⟨rfl, rfl⟩

/-- C31: for every hand and every index below its length, `dropHand` returns the entity
that was at that position, and the hand afterwards is the old hand with that one position
removed: the entities before it, then the entities after it, in their order; it is
shorter by one. -/
theorem dropHand_removes_position (g : Game) (isLocalPlayer : Bool) (t : Tile) (index : Nat)
    (h : index < g.player.mObjectsInHand.length) :
    (dropHand g isLocalPlayer t index).entity = g.player.mObjectsInHand[index]? ∧
      (dropHand g isLocalPlayer t index).entity
        = some (g.player.mObjectsInHand.get ⟨index, h⟩) ∧
      (dropHand g isLocalPlayer t index).game.player.mObjectsInHand
        = g.player.mObjectsInHand.take index ++ g.player.mObjectsInHand.drop (index + 1) ∧
      (dropHand g isLocalPlayer t index).game.player.mObjectsInHand.length
        = g.player.mObjectsInHand.length - 1 := by
  obtain ⟨h1, h2⟩ := dropHand_of_lt g isLocalPlayer t index h
  refine ⟨?_, h1, ?_, ?_⟩
  · rw [h1, List.getElem?_eq_getElem h]
    rfl
  · rw [h2, List.eraseIdx_eq_take_drop_succ]
  · rw [h2, List.length_eraseIdx_of_lt h]

/-- C31 on an example: of the two creatures in hand the first is dropped, on a client
whose local player it is; the second is left. -/
theorem dropHand_removes_position_witness :
    (dropHand handGame true { x := 3, y := 4 } 0).entity
        = some { name := 1, objectType := GameEntityType.creature, seat := none } ∧
      (dropHand handGame true { x := 3, y := 4 } 0).game.player.mObjectsInHand
        = [{ name := 2, objectType := GameEntityType.creature, seat := none }] := by
  have h := dropHand_removes_position handGame true { x := 3, y := 4 } 0 (by decide)
  refine ⟨?_, ?_⟩
  · rw [h.1]
    decide
  · rw [h.2.2.1]
    decide

/-- C33: `notifySeatsWithVision` keeps the record free of repeated seats: if no seat is
twice in the record before the call, none is twice in it afterwards, whatever the seats
given (with repeats, or naming the caster's seat and the allied seats) and whatever the
alliances and players. -/
theorem notifySeatsWithVision_nodup (w : SeatTable) (spell : Spell) (seats : List Nat)
    (hnd : spell.mSeatsWithVisionNotified.Nodup) :
    (notifySeatsWithVision w spell seats).1.mSeatsWithVisionNotified.Nodup := by
  unfold notifySeatsWithVision
  apply gainVision_nodup
  apply gainVision_nodup
  rw [loseVision_record]
  exact hnd.filter _

/-- C33 on the example: the seats given repeat seat 5 and name the caster's seat 1 and
its ally 2. -/
theorem notifySeatsWithVision_nodup_witness :
    (notifySeatsWithVision exampleSeats exampleSpell
        [5, 1, 2, 5, 2]).1.mSeatsWithVisionNotified = [1, 5, 2] ∧
      (notifySeatsWithVision exampleSeats exampleSpell
        [5, 1, 2, 5, 2]).1.mSeatsWithVisionNotified.Nodup :=
  ⟨by decide,
    notifySeatsWithVision_nodup exampleSeats exampleSpell [5, 1, 2, 5, 2] (by decide)⟩

/-! ## Asking whether a drop is possible (`Player::isDropHandPossible`) -/

/-- `Player::isDropHandPossible`. The answer of `entity->tryDrop(getSeat(), t)` comes from
the entity classes, which are missing from the sources, and is taken as given. The
function tests only whether the hand is empty; `none` stands for the read of
`mObjectsInHand[index]` at an index that is not in the hand, for which the language
defines no behaviour. -/
def isDropHandPossible (tryDrop : GameEntity → Option Nat → Tile → Bool) (g : Game)
    (t : Tile) (index : Nat) : Option Bool :=
  if g.player.mObjectsInHand.isEmpty then some false
  else
    match g.player.mObjectsInHand[index]? with
    | none => none
    | some entity => some (tryDrop entity g.player.mSeat t)

/-- What `isDropHandPossible` does, case by case: false for the empty hand, the answer of
`tryDrop` for an index in the hand, and a read outside the hand for any other index of a
hand that is not empty. -/
theorem isDropHandPossible_cases (tryDrop : GameEntity → Option Nat → Tile → Bool)
    (g : Game) (t : Tile) (index : Nat) :
    (g.player.mObjectsInHand = [] → isDropHandPossible tryDrop g t index = some false) ∧
    (∀ h : index < g.player.mObjectsInHand.length,
      isDropHandPossible tryDrop g t index
        = some (tryDrop (g.player.mObjectsInHand.get ⟨index, h⟩) g.player.mSeat t)) ∧
    (g.player.mObjectsInHand ≠ [] → g.player.mObjectsInHand.length ≤ index →
      isDropHandPossible tryDrop g t index = none) := by
  refine ⟨?_, ?_, ?_⟩
  · intro h
    simp [isDropHandPossible, h]
  · intro h
    have hne : g.player.mObjectsInHand ≠ [] := by
      intro h0
      rw [h0] at h
      exact Nat.not_lt_zero _ h
    simp [isDropHandPossible, hne, List.getElem?_eq_getElem h]
  · intro hne hle
    simp [isDropHandPossible, hne, List.getElem?_eq_none hle]

/-- C34 fails on the code: with two creatures in hand and index 2, `isDropHandPossible`
passes its only test, that the hand is not empty, and reads `mObjectsInHand[2]`, which is
outside the hand, where the claim has it return false. With index 1 it returns the answer
of `tryDrop`, and with an empty hand it returns false. -/
theorem isDropHandPossible_reads_outside_hand :
    handGame.player.mObjectsInHand.length = 2 ∧
      isDropHandPossible (fun _ _ _ => true) handGame { x := 3, y := 4 } 2 = none ∧
      isDropHandPossible (fun _ _ _ => true) handGame { x := 3, y := 4 } 1 = some true ∧
      isDropHandPossible (fun _ _ _ => true) exampleGame { x := 3, y := 4 } 2
        = some false := by
  decide

/-! ## Rotating the hand (`Player::rotateHand`) -/

/-- The enum `Player::Direction`. -/
inductive Direction where
  | left
  | right
  deriving DecidableEq, Repr

/-- `std::rotate(begin, begin + middle, end)` on a list: the element at `middle` becomes
the first, and the elements before it go to the end. -/
def stdRotate {α : Type} (l : List α) (middle : Nat) : List α :=
  l.drop middle ++ l.take middle

/-- `Player::rotateHand`: the game afterwards and the render request sent, if any. -/
def rotateHand (g : Game) (d : Direction) : Game × List HandEvent :=
  if g.player.mObjectsInHand.length > 1 then
    let hand :=
      if d = Direction.left then stdRotate g.player.mObjectsInHand 1
      else stdRotate g.player.mObjectsInHand (g.player.mObjectsInHand.length - 1)
    ({ g with player := { g.player with mObjectsInHand := hand } },
      [HandEvent.rrRotateHand g.player.mId])
  else (g, [])

theorem rotateHand_small (g : Game) (d : Direction)
    (h : g.player.mObjectsInHand.length ≤ 1) : rotateHand g d = (g, []) := by
  unfold rotateHand
  simp only [Nat.not_lt.mpr h, if_false]

theorem rotateHand_large (g : Game) (d : Direction)
    (h : g.player.mObjectsInHand.length > 1) :
    (rotateHand g d).1.player.mObjectsInHand
        = (if d = Direction.left then stdRotate g.player.mObjectsInHand 1
           else stdRotate g.player.mObjectsInHand (g.player.mObjectsInHand.length - 1)) ∧
      (rotateHand g d).2 = [HandEvent.rrRotateHand g.player.mId] := by
  unfold rotateHand
  rw [if_pos h]
  exact ⟨rfl, rfl⟩

theorem rotateHand_left_hand (g : Game) (a : GameEntity) (rest : List GameEntity)
    (h : g.player.mObjectsInHand = a :: rest) (hrest : rest ≠ []) :
    (rotateHand g Direction.left).1.player.mObjectsInHand = rest ++ [a] := by
  have hlen : g.player.mObjectsInHand.length > 1 := by
    rw [h]
    cases rest with
    | nil => exact absurd rfl hrest
    | cons b tail => simp
  rw [(rotateHand_large g Direction.left hlen).1, if_pos rfl, h]
  rfl

theorem rotateHand_right_hand (g : Game) (init : List GameEntity) (z : GameEntity)
    (h : g.player.mObjectsInHand = init ++ [z]) (hinit : init ≠ []) :
    (rotateHand g Direction.right).1.player.mObjectsInHand = z :: init := by
  have hlen : g.player.mObjectsInHand.length > 1 := by
    rw [h]
    cases init with
    | nil => exact absurd rfl hinit
    | cons b tail => simp
  have hl : (init ++ [z]).length - 1 = init.length := by simp
  have hd : Direction.right ≠ Direction.left := by decide
  rw [(rotateHand_large g Direction.right hlen).1, if_neg hd, h, hl]
  unfold stdRotate
  rw [List.drop_left' rfl, List.take_left' rfl]
  rfl

theorem rotateHand_length_perm (g : Game) (d : Direction) :
    (rotateHand g d).1.player.mObjectsInHand.length = g.player.mObjectsInHand.length ∧
      List.Perm (rotateHand g d).1.player.mObjectsInHand g.player.mObjectsInHand := by
  by_cases hlen : g.player.mObjectsInHand.length > 1
  · have hperm : ∀ m, List.Perm (stdRotate g.player.mObjectsInHand m)
        g.player.mObjectsInHand := by
      intro m
      unfold stdRotate
      have h1 : List.Perm (List.drop m g.player.mObjectsInHand ++
          List.take m g.player.mObjectsInHand)
          (List.take m g.player.mObjectsInHand ++ List.drop m g.player.mObjectsInHand) :=
        List.perm_append_comm
      rw [List.take_append_drop] at h1
      exact h1
    rw [(rotateHand_large g d hlen).1]
    by_cases hd : d = Direction.left
    · rw [if_pos hd]
      exact ⟨(hperm 1).length_eq, hperm 1⟩
    · rw [if_neg hd]
      exact ⟨(hperm _).length_eq, hperm _⟩
  · rw [rotateHand_small g d (Nat.not_lt.mp hlen)]
    exact ⟨rfl, List.Perm.refl _⟩

theorem rotateHand_left_right (g : Game) :
    (rotateHand (rotateHand g Direction.left).1 Direction.right).1.player.mObjectsInHand
      = g.player.mObjectsInHand := by
  by_cases hlen : g.player.mObjectsInHand.length > 1
  · cases hh : g.player.mObjectsInHand with
    | nil => rw [hh] at hlen; exact absurd hlen (by simp)
    | cons a rest =>
      have hrest : rest ≠ [] := by
        intro h0
        rw [hh, h0] at hlen
        exact absurd hlen (by simp)
      have h1 := rotateHand_left_hand g a rest hh hrest
      exact rotateHand_right_hand _ rest a h1 hrest
  · rw [rotateHand_small g Direction.left (Nat.not_lt.mp hlen)]
    rw [rotateHand_small g Direction.right (Nat.not_lt.mp hlen)]

theorem rotateHand_right_left (g : Game) :
    (rotateHand (rotateHand g Direction.right).1 Direction.left).1.player.mObjectsInHand
      = g.player.mObjectsInHand := by
  by_cases hlen : g.player.mObjectsInHand.length > 1
  · rcases List.eq_nil_or_concat g.player.mObjectsInHand with h0 | ⟨init, z, hz⟩
    · rw [h0] at hlen
      exact absurd hlen (by simp)
    · rw [List.concat_eq_append] at hz
      have hinit : init ≠ [] := by
        intro h0
        rw [hz, h0] at hlen
        exact absurd hlen (by simp)
      have h1 := rotateHand_right_hand g init z hz hinit
      rw [rotateHand_left_hand _ z init h1 hinit, hz]
  · rw [rotateHand_small g Direction.right (Nat.not_lt.mp hlen)]
    rw [rotateHand_small g Direction.left (Nat.not_lt.mp hlen)]

/-- C36: `rotateHand` is a rotation by one position. With more than one object in hand,
`rotateHand(left)` moves the first object to the end and `rotateHand(right)` moves the
last object to the front; either keeps the length of the hand and its objects, counted
with repeats; `rotateHand(left)` followed by `rotateHand(right)`, and the reverse,
restores the hand; and a hand of size 0 or 1 is left as it is, with no render request. -/
theorem rotateHand_rotation (g : Game) :
    (∀ a rest, g.player.mObjectsInHand = a :: rest → rest ≠ [] →
      (rotateHand g Direction.left).1.player.mObjectsInHand = rest ++ [a]) ∧
    (∀ init z, g.player.mObjectsInHand = init ++ [z] → init ≠ [] →
      (rotateHand g Direction.right).1.player.mObjectsInHand = z :: init) ∧
    (∀ d, (rotateHand g d).1.player.mObjectsInHand.length = g.player.mObjectsInHand.length ∧
      List.Perm (rotateHand g d).1.player.mObjectsInHand g.player.mObjectsInHand) ∧
    (rotateHand (rotateHand g Direction.left).1 Direction.right).1.player.mObjectsInHand
      = g.player.mObjectsInHand ∧
    (rotateHand (rotateHand g Direction.right).1 Direction.left).1.player.mObjectsInHand
      = g.player.mObjectsInHand ∧
    (g.player.mObjectsInHand.length ≤ 1 → ∀ d, rotateHand g d = (g, [])) :=
  ⟨rotateHand_left_hand g, rotateHand_right_hand g, rotateHand_length_perm g,
    rotateHand_left_right g, rotateHand_right_left g,
    fun h d => rotateHand_small g d h⟩

/-- A game whose player holds three creatures in hand. -/
def threeInHandGame : Game :=
  { exampleGame with player := { exampleGame.player with
      mObjectsInHand :=
        [{ name := 1, objectType := GameEntityType.creature, seat := none },
         { name := 2, objectType := GameEntityType.creature, seat := none },
         { name := 3, objectType := GameEntityType.creature, seat := none }] } }

/-- C36 on an example: with the creatures 1, 2, 3 in hand, rotating left gives 2, 3, 1
and rotating right gives 3, 1, 2; the fresh player's empty hand is left alone. -/
theorem rotateHand_rotation_witness :
    (rotateHand threeInHandGame Direction.left).1.player.mObjectsInHand
        = [{ name := 2, objectType := GameEntityType.creature, seat := none },
           { name := 3, objectType := GameEntityType.creature, seat := none },
           { name := 1, objectType := GameEntityType.creature, seat := none }] ∧
      (rotateHand threeInHandGame Direction.right).1.player.mObjectsInHand
        = [{ name := 3, objectType := GameEntityType.creature, seat := none },
           { name := 1, objectType := GameEntityType.creature, seat := none },
           { name := 2, objectType := GameEntityType.creature, seat := none }] ∧
      rotateHand exampleGame Direction.left = (exampleGame, []) :=
  ⟨(rotateHand_rotation threeInHandGame).1 _ _ rfl (by decide),
    (rotateHand_rotation threeInHandGame).2.1
      [{ name := 1, objectType := GameEntityType.creature, seat := none },
       { name := 2, objectType := GameEntityType.creature, seat := none }]
      { name := 3, objectType := GameEntityType.creature, seat := none } rfl (by decide),
    (rotateHand_rotation exampleGame).2.2.2.2.2 (by decide) Direction.left⟩

/-! ## The console (`source/Console.cpp`)

A string is the list of its characters, a character being its code. `size_t` is taken to
have 64 bits and `unsigned int` 32 bits. -/

/-- The members of `Console` that the history keys read and write. -/
structure Console where
  visible : Bool
  updateOverlay : Bool
  prompt : List Nat
  history : List (List Nat)
  curHistPos : Nat
  deriving DecidableEq, Repr

/-- The console as `Console::Console` leaves it: hidden, nothing typed, no history. -/
def Console.new : Console :=
  { visible := false, updateOverlay := true, prompt := [], history := [], curHistPos := 0 }

/-- `Console::scrollHistory`. Going down, `++curHistPos` is taken modulo `2^32`, and the
bound `history.size() - 1` is computed in `size_t`, modulo `2^64`. -/
def scrollHistory (c : Console) (direction : Bool) : Console :=
  if direction then
    if c.curHistPos = 0 then c
    else { c with curHistPos := c.curHistPos - 1 }
  else
    let cur := (c.curHistPos + 1) % 4294967296
    let maxIndex := (c.history.length + 18446744073709551616 - 1) % 18446744073709551616
    if cur > maxIndex then { c with curHistPos := maxIndex % 4294967296 }
    else { c with curHistPos := cur }

/-- The cases `KC_UP` (`up = true`) and `KC_DOWN` of `Console::onKeyPressed`: the history
is scrolled and the prompt is set to `history[curHistPos]`. `none` stands for a read of
`history` at an index that is not in it, for which the language defines no behaviour. -/
def onKeyPressedUpDown (c : Console) (up : Bool) : Option Console :=
  if !c.visible then some c
  else
    let c1 := scrollHistory c up
    match c1.history[c1.curHistPos]? with
    | none => none
    | some entry => some { c1 with prompt := entry, updateOverlay := true }

/-- With a history that is not empty and a position that is at most its length (as the
key handlers keep it), the position after `scrollHistory` is an index of the history. -/
theorem scrollHistory_valid_of_nonempty (c : Console) (direction : Bool)
    (hne : 0 < c.history.length) (hlen : c.history.length < 4294967296)
    (hpos : c.curHistPos ≤ c.history.length) :
    (scrollHistory c direction).curHistPos < (scrollHistory c direction).history.length := by
  cases direction with
  | true =>
    by_cases h0 : c.curHistPos = 0
    · simp only [scrollHistory, h0, if_true]
      exact hne
    · simp only [scrollHistory, h0, if_true, if_false]
      omega
  | false =>
    by_cases hgt : (c.curHistPos + 1) % 4294967296 >
        (c.history.length + 18446744073709551616 - 1) % 18446744073709551616
    · simp only [scrollHistory, Bool.false_eq_true, if_false, hgt, if_true]
      omega
    · simp only [scrollHistory, Bool.false_eq_true, if_false, hgt]
      omega

/-- The freshly constructed console, shown. -/
def shownConsole : Console := { Console.new with visible := true }

/-- C35 fails on the code for the empty history. On the freshly constructed console,
`scrollHistory(true)` leaves the position at 0 and `scrollHistory(false)` sets it to 1,
because the bound `history.size() - 1` wraps around to the largest `size_t`; neither is
an index of the empty history, and the `KC_UP` and `KC_DOWN` handlers then read
`history[curHistPos]` outside the history. -/
theorem scrollHistory_empty_history_out_of_bounds :
    (scrollHistory shownConsole true).curHistPos = 0 ∧
      (scrollHistory shownConsole false).curHistPos = 1 ∧
      (scrollHistory shownConsole true).history.length = 0 ∧
      (scrollHistory shownConsole false).history.length = 0 ∧
      onKeyPressedUpDown shownConsole true = none ∧
      onKeyPressedUpDown shownConsole false = none := by
  decide

/-! ## Splitting a string (`Console::split`) -/

/-- The value `std::string::npos`, the largest `size_t`. -/
def npos : Nat := 18446744073709551615

/-- The search of `find`: the index of the first `splitChar` in `rest`, whose first
character has index `i`, or `npos`. -/
def findAux (splitChar : Nat) : List Nat → Nat → Nat
  | [], _ => npos
  | x :: rest, i => if x = splitChar then i else findAux splitChar rest (i + 1)

/-- The call `str.find(splitChar, lastPos)`: the index of the first `splitChar` at or after
`lastPos`, or `npos` if there is none. -/
def find (str : List Nat) (splitChar : Nat) (lastPos : Nat) : Nat :=
  findAux splitChar (str.drop lastPos) lastPos

/-- The call `str.substr(pos, count)`: at most `count` characters from `pos` on; `none`
stands for the exception thrown when `pos` is beyond the end of the string. -/
def substr (str : List Nat) (pos : Nat) (count : Nat) : Option (List Nat) :=
  if pos > str.length then none else some ((str.drop pos).take count)

/-- The loop of `Console::split`, with fuel: one turn finds the next `splitChar`, pushes
the piece before it and moves `lastPos` behind it, and the loop goes on while something
was found. The differences and sums of positions are those of `size_t`. `none` is
returned when the fuel runs out or `substr` throws. -/
def splitLoop (str : List Nat) (splitChar : Nat) :
    Nat → Nat → List (List Nat) → Option (List (List Nat))
  | 0, _, _ => none
  | fuel + 1, lastPos, splittedStrings =>
    let pos := find str splitChar lastPos
    match substr str lastPos ((pos + 18446744073709551616 - lastPos) % 18446744073709551616)
    with
    | none => none
    | some piece =>
      if pos ≠ npos then
        splitLoop str splitChar fuel ((pos + 1) % 18446744073709551616)
          (splittedStrings ++ [piece])
      else some (splittedStrings ++ [piece])

/-- `Console::split`: the loop started at position 0 with nothing pushed. One turn more
than the string has characters is enough fuel. -/
def split (str : List Nat) (splitChar : Nat) : Option (List (List Nat)) :=
  splitLoop str splitChar (str.length + 1) 0 []

/-- The pieces split a string at a character: there is one piece more than the string has
occurrences of the character, no piece holds the character, and the pieces joined with
the character between them give the string. -/
def IsSplit (splitChar : Nat) (str : List Nat) (pieces : List (List Nat)) : Prop :=
  pieces.length = str.count splitChar + 1 ∧
    (∀ piece ∈ pieces, splitChar ∉ piece) ∧
    List.intercalate [splitChar] pieces = str

theorem findAux_spec (c : Nat) :
    ∀ (rest : List Nat) (i : Nat),
      (c ∉ rest ∧ findAux c rest i = npos) ∨
        ∃ pre post, rest = pre ++ c :: post ∧ c ∉ pre ∧ findAux c rest i = i + pre.length := by
  intro rest
  induction rest with
  | nil => intro i; left; exact ⟨by simp, rfl⟩
  | cons x tail ih =>
    intro i
    by_cases hx : x = c
    · right
      refine ⟨[], tail, by simp [hx], by simp, ?_⟩
      simp [findAux, hx]
    · rcases ih (i + 1) with ⟨hnot, hfind⟩ | ⟨pre, post, hsplit, hpre, hfind⟩
      · left
        refine ⟨?_, ?_⟩
        · intro hmem
          rcases List.mem_cons.mp hmem with h | h
          · exact hx h.symm
          · exact hnot h
        · simp only [findAux, hx, if_false]
          exact hfind
      · right
        refine ⟨x :: pre, post, by simp [hsplit], ?_, ?_⟩
        · intro hmem
          rcases List.mem_cons.mp hmem with h | h
          · exact hx h.symm
          · exact hpre h
        · simp only [findAux, hx, if_false, hfind, List.length_cons]
          omega

theorem isSplit_single (c : Nat) (rest : List Nat) (h : c ∉ rest) : IsSplit c rest [rest] := by
  refine ⟨?_, ?_, ?_⟩
  · simp [List.count_eq_zero_of_not_mem h]
  · intro piece hp
    rw [List.mem_singleton] at hp
    rw [hp]
    exact h
  · simp [List.intercalate]

theorem isSplit_cons (c : Nat) (pre post : List Nat) (ps : List (List Nat))
    (hpre : c ∉ pre) (hps : IsSplit c post ps) : IsSplit c (pre ++ c :: post) (pre :: ps) := by
  obtain ⟨hlen, hnot, hjoin⟩ := hps
  refine ⟨?_, ?_, ?_⟩
  · simp [List.count_append, List.count_eq_zero_of_not_mem hpre, hlen]
  · intro piece hp
    rcases List.mem_cons.mp hp with h | h
    · rw [h]
      exact hpre
    · exact hnot piece h
  · cases ps with
    | nil => simp at hlen
    | cons p tail =>
      have hunf : List.intercalate [c] (pre :: p :: tail)
          = pre ++ c :: List.intercalate [c] (p :: tail) := by
        simp [List.intercalate]
      rw [hunf, hjoin]

theorem splitLoop_spec (str : List Nat) (c : Nat) (hstr : str.length < npos) :
    ∀ (fuel lastPos : Nat) (acc : List (List Nat)),
      lastPos ≤ str.length → str.length - lastPos < fuel →
        ∃ ps, splitLoop str c fuel lastPos acc = some (acc ++ ps) ∧
          IsSplit c (str.drop lastPos) ps := by
  unfold npos at hstr
  intro fuel
  induction fuel with
  | zero => intro lastPos acc _ h; exact absurd h (Nat.not_lt_zero _)
  | succ fuel ih =>
    intro lastPos acc hle hfuel
    have hrestlen : (str.drop lastPos).length = str.length - lastPos := List.length_drop _ _
    have hsub : ∀ count, substr str lastPos count = some ((str.drop lastPos).take count) := by
      intro count
      unfold substr
      rw [if_neg (Nat.not_lt.mpr hle)]
    rcases findAux_spec c (str.drop lastPos) lastPos with
      ⟨hnot, hfind⟩ | ⟨pre, post, hsplit, hpre, hfind⟩
    · refine ⟨[str.drop lastPos], ?_, isSplit_single c _ hnot⟩
      have hpos : find str c lastPos = npos := hfind
      have hcount : (npos + 18446744073709551616 - lastPos) % 18446744073709551616
          = 18446744073709551615 - lastPos := by
        unfold npos
        omega
      have htake : (str.drop lastPos).take (18446744073709551615 - lastPos)
          = str.drop lastPos := by
        apply List.take_of_length_le
        rw [hrestlen]
        omega
      simp only [splitLoop, hpos, hsub, hcount, htake, ne_eq, not_true_eq_false, if_false]
    · have hk : lastPos + pre.length + 1 + post.length = str.length := by
        have h1 := congrArg List.length hsplit
        rw [hrestlen] at h1
        simp only [List.length_append, List.length_cons] at h1
        omega
      have hpos : find str c lastPos = lastPos + pre.length := hfind
      have hcount : (lastPos + pre.length + 18446744073709551616 - lastPos)
          % 18446744073709551616 = pre.length := by omega
      have htake : (str.drop lastPos).take pre.length = pre := by
        rw [hsplit]
        exact List.take_left' rfl
      have hne : lastPos + pre.length ≠ npos := by
        unfold npos
        omega
      have hnext : (lastPos + pre.length + 1) % 18446744073709551616
          = lastPos + pre.length + 1 := by omega
      have hdrop : str.drop (lastPos + pre.length + 1) = post := by
        have h1 : str.drop (lastPos + (pre.length + 1))
            = (str.drop lastPos).drop (pre.length + 1) := (List.drop_drop _ _ _).symm
        rw [Nat.add_assoc, h1, hsplit]
        have h2 : pre ++ c :: post = (pre ++ [c]) ++ post := by simp
        rw [h2]
        exact List.drop_left' (by simp)
      obtain ⟨ps, hrun, hps⟩ := ih (lastPos + pre.length + 1) (acc ++ [pre])
        (by omega) (by omega)
      refine ⟨pre :: ps, ?_, ?_⟩
      · simp only [splitLoop, hpos, hsub, hcount, htake, ne_eq, hne, not_false_eq_true,
          if_true, hnext, hrun]
        simp
      · rw [hsplit]
        rw [hdrop] at hps
        exact isSplit_cons c pre post ps hpre hps

/-- C32: for every string and every character, `Console::split` terminates and returns
pieces: one more than the string has occurrences of the character, none of them holding
the character, and giving the string when joined in order with the character between
them. The empty string yields one empty piece. The string is shorter than
`std::string::npos`, as every `std::string` is. -/
theorem split_spec (str : List Nat) (splitChar : Nat) (hstr : str.length < npos) :
    ∃ pieces, split str splitChar = some pieces ∧
      pieces.length = str.count splitChar + 1 ∧
      (∀ piece ∈ pieces, splitChar ∉ piece) ∧
      List.intercalate [splitChar] pieces = str := by
  obtain ⟨ps, hrun, hps⟩ := splitLoop_spec str splitChar hstr (str.length + 1) 0 []
    (Nat.zero_le _) (by omega)
  refine ⟨ps, ?_, ?_⟩
  · unfold split
    rw [hrun]
    rfl
  · exact hps

/-- C32 on examples: the command `a b ` split at the space (code 32) gives the pieces
`a`, `b` and the empty piece; the empty string gives one empty piece. -/
theorem split_spec_witness :
    split [97, 32, 98, 32] 32 = some [[97], [98], []] ∧
      split [] 32 = some [[]] ∧
      ∃ pieces, split [97, 32, 98, 32] 32 = some pieces ∧
        pieces.length = List.count 32 [97, 32, 98, 32] + 1 ∧
        (∀ piece ∈ pieces, 32 ∉ piece) ∧
        List.intercalate [32] pieces = [97, 32, 98, 32] :=
  ⟨by decide, by decide, split_spec [97, 32, 98, 32] 32 (by decide)⟩

end OpenDungeons
